import Mathlib

/-!
Verification of the sprint-review sync core (description parsing, status
mapping, label matching, progress aggregation, merge/build, and the
closed-sprint orchestrator gate) against its natural-language specification.

Strings are modelled as `List Char`.  Python semantics that the source relies
on are embedded explicitly:
* `str.strip` / the regex class `\s` use the ASCII whitespace characters;
* `str.lower` is modelled on ASCII letters plus the Polish letters that occur
  in the keyword tables (other characters are fixed points, matching Python on
  every string the system manipulates);
* the concrete regexes of the source (`\[([^\]]+)\]`, `\s*\[[^\]]+\]\s*`,
  `^\d+[.)\s]`, `^[-*]\s`, `^[\d]+[.)\s]+|^[-*]\s+`) are unfolded into
  recursive functions with exactly the leftmost/greedy semantics the Python
  `re` module gives them on these patterns.
-/

namespace Review

/-- ASCII whitespace, the characters matched by `str.strip()` and `\s`
for the strings this system manipulates. -/
def isWS (c : Char) : Bool :=
  c = ' ' || c = '\t' || c = '\n' || c = '\r' || c = '\x0b' || c = '\x0c'

/-- ASCII digit, the characters matched by `\d` here. -/
def isDigitChar (c : Char) : Bool :=
  '0' ≤ c && c ≤ '9'

/-- Python `str.lower`, restricted to ASCII letters and the Polish letters
appearing in the parser keyword tables; all other characters are fixed. -/
def pyLowerChar (c : Char) : Char :=
  match c with
  | 'A' => 'a' | 'B' => 'b' | 'C' => 'c' | 'D' => 'd' | 'E' => 'e'
  | 'F' => 'f' | 'G' => 'g' | 'H' => 'h' | 'I' => 'i' | 'J' => 'j'
  | 'K' => 'k' | 'L' => 'l' | 'M' => 'm' | 'N' => 'n' | 'O' => 'o'
  | 'P' => 'p' | 'Q' => 'q' | 'R' => 'r' | 'S' => 's' | 'T' => 't'
  | 'U' => 'u' | 'V' => 'v' | 'W' => 'w' | 'X' => 'x' | 'Y' => 'y'
  | 'Z' => 'z'
  | 'Ą' => 'ą' | 'Ć' => 'ć' | 'Ę' => 'ę' | 'Ł' => 'ł' | 'Ń' => 'ń'
  | 'Ó' => 'ó' | 'Ś' => 'ś' | 'Ź' => 'ź' | 'Ż' => 'ż'
  | other => other

/-- Python `str.lower` on a whole string. -/
def pyLower (s : List Char) : List Char :=
  s.map pyLowerChar

/-- Remove leading whitespace (half of Python `str.strip()`). -/
def ltrim (s : List Char) : List Char :=
  s.dropWhile isWS

/-- Remove trailing whitespace (half of Python `str.strip()`). -/
def rtrim (s : List Char) : List Char :=
  (s.reverse.dropWhile isWS).reverse

/-- Python `str.strip()`. -/
def strip (s : List Char) : List Char :=
  rtrim (ltrim s)

/-- Python `str.split('\n')`: the list of lines, including empty ones. -/
def splitOnNl (s : List Char) : List (List Char) :=
  match s with
  | [] => [[]]
  | c :: rest =>
    match splitOnNl rest with
    | [] => [[]]
    | l :: ls => if c = '\n' then [] :: l :: ls else (c :: l) :: ls

/-- Python substring test `pat in s` (contiguous substring). -/
def containsSub (pat : List Char) : List Char → Bool
  | [] => pat.isEmpty
  | c :: rest => pat.isPrefixOf (c :: rest) || containsSub pat rest

/-- Whether any of the given keywords occurs as a substring of `s`. -/
def containsAny (ks : List (List Char)) (s : List Char) : Bool :=
  ks.any (fun k => containsSub k s)

/-- Decimal digit rendering helper with fuel, so that the kernel can
evaluate it; `natRepr` supplies sufficient fuel. -/
def natReprGo (fuel n : Nat) : List Char :=
  match fuel with
  | 0 => []
  | f + 1 =>
    if n < 10 then [Nat.digitChar n]
    else natReprGo f (n / 10) ++ [Nat.digitChar (n % 10)]

/-- Python `str(n)` for a natural number: usual decimal rendering. -/
def natRepr (n : Nat) : List Char :=
  natReprGo (n + 1) n

/-- Source `jira_parser.parse_client_from_text`, first regex:
try to match `\[([^\]]+)\]` at the head of the string; on success return
the (nonempty) group together with the text after the closing bracket. -/
def bracketAt (s : List Char) : Option (List Char × List Char) :=
  match s with
  | '[' :: t =>
    match t.dropWhile (fun c => c ≠ ']') with
    | ']' :: after =>
      match t.takeWhile (fun c => c ≠ ']') with
      | [] => none
      | g :: gs => some (g :: gs, after)
    | _ => none
  | _ => none

/-- Leftmost match of `\[([^\]]+)\]` in `s` (Python `re.search`), returning
the group. -/
def findFirstBracket : List Char → Option (List Char)
  | [] => none
  | c :: rest =>
    match bracketAt (c :: rest) with
    | some (g, _) => some g
    | none => findFirstBracket rest

/-- Source `jira_parser.parse_client_from_text`, second regex:
Python `re.sub(r'\s*\[[^\]]+\]\s*', ' ', s)`.  Scanning left to right, each
maximal run of whitespace followed by a nonempty bracketed group and its
trailing whitespace is replaced by a single space. -/
def subBracketsGo (fuel : Nat) (s : List Char) : List Char :=
  match fuel with
  | 0 => []
  | f + 1 =>
    match s with
    | [] => []
    | c :: rest =>
      match bracketAt (List.dropWhile isWS (c :: rest)) with
      | some (_, after) => ' ' :: subBracketsGo f (after.dropWhile isWS)
      | none => c :: subBracketsGo f rest

def subBrackets (s : List Char) : List Char :=
  subBracketsGo s.length s

/-- Source `jira_parser.parse_client_from_text`: extract the client tag
`[...]` (first occurrence anywhere in the line) and the cleaned title.
Returns `(client?, cleaned_text)`. -/
def parse_client_from_text (text : List Char) : Option (List Char) × List Char :=
  let t := strip text
  match findFirstBracket t with
  | some g => (some (strip g), strip (subBrackets t))
  | none => (none, t)

/-- Source `jira_parser._is_numbered_item`: regex `^\d+[.)\s]`, i.e. one or
more digits followed by a dot, a closing parenthesis or whitespace. -/
def isNumberedTail : List Char → Bool
  | [] => false
  | c :: rest =>
    if isDigitChar c then isNumberedTail rest
    else c = '.' || c = ')' || isWS c

def isNumberedItem : List Char → Bool
  | [] => false
  | c :: rest => isDigitChar c && isNumberedTail rest

/-- Source `jira_parser._is_dash_item`: regex `^[-*]\s`. -/
def isDashItem : List Char → Bool
  | c :: c2 :: _ => (c = '-' || c = '*') && isWS c2
  | _ => false

/-- Source `jira_parser._is_section_header`: the line starts with `##`
or `**`. -/
def isSectionHeaderLine (line : List Char) : Bool :=
  List.isPrefixOf ['#', '#'] line || List.isPrefixOf ['*', '*'] line

/-- Source `parse_sprint_description`, marker removal:
Python `re.sub(r'^[\d]+[.)\s]+|^[-*]\s+', '', line)`.  The first alternative
removes the maximal digit run and then the maximal run of `[.)\s]` characters;
the second removes the dash or asterisk and the following whitespace run. -/
def stripMarker (line : List Char) : List Char :=
  if isNumberedItem line then
    (line.dropWhile isDigitChar).dropWhile (fun c => c = '.' || c = ')' || isWS c)
  else
    match line with
    | c :: c2 :: rest =>
      if (c = '-' || c = '*') && isWS c2 then (c2 :: rest).dropWhile isWS
      else line
    | _ => line

/-- A section of the parse result. -/
inductive Sect where
  | goals : Sect
  | sideGoals : Sect
deriving DecidableEq

/-- A parsed goal or side-goal declaration, the dictionaries appended to
`result['goals']` / `result['sideGoals']` by `parse_sprint_description`. -/
structure GoalDecl where
  id : Nat
  title : List Char
  client : Option (List Char)
  tag : List Char
deriving DecidableEq

/-- Loop state of `parse_sprint_description`: current section and the two
independent counters together with the accumulated declarations. -/
structure ParseSt where
  sect : Option Sect
  gc : Nat
  sc : Nat
  gs : List GoalDecl
  ss : List GoalDecl
deriving DecidableEq

/-- The phrases that switch the current section to goals. -/
def goalPhrases : List (List Char) :=
  ["cele główne".toList, "cele sprintu".toList, "sprint goals".toList]

/-- The phrases that switch the current section to side goals. -/
def sidePhrases : List (List Char) :=
  ["cele poboczne".toList, "side goals".toList, "poboczn".toList]

/-- The five phrases of the first pass that enable header mode. -/
def headerPhrases : List (List Char) :=
  ["cele główne".toList, "cele sprintu".toList, "sprint goals".toList,
   "cele poboczne".toList, "side goals".toList]

/-- All six phrases that the per-line loop consumes as section headers. -/
def sixPhrases : List (List Char) :=
  goalPhrases ++ sidePhrases

/-- First pass of `parse_sprint_description`: header mode is enabled iff some
line, lowercased and stripped, contains one of the five header phrases. -/
def hasExplicitHeaders (lines : List (List Char)) : Bool :=
  lines.any (fun l => containsAny headerPhrases (strip (pyLower l)))

/-- One iteration of the `for line in lines` loop of
`parse_sprint_description`. -/
def processLine (hasH : Bool) (gpre spre : List Char) (st : ParseSt)
    (raw : List Char) : ParseSt :=
  let line := strip raw
  if line = [] then st
  else
    let lower := pyLower line
    if containsAny goalPhrases lower then { st with sect := some Sect.goals }
    else if containsAny sidePhrases lower then { st with sect := some Sect.sideGoals }
    else if isSectionHeaderLine line then { st with sect := none }
    else
      let isNum := isNumberedItem line
      let isDash := isDashItem line
      if !isNum && !isDash then st
      else
        let target : Option Sect :=
          if hasH then st.sect
          else if isNum then some Sect.goals
          else if isDash then some Sect.sideGoals
          else none
        match target with
        | none => st
        | some sec =>
          let cleaned := stripMarker line
          if cleaned = [] then st
          else
            let pc := parse_client_from_text cleaned
            match sec with
            | Sect.goals =>
              { st with
                gc := st.gc + 1
                gs := st.gs ++ [⟨st.gc + 1, pc.2, pc.1, gpre ++ natRepr (st.gc + 1)⟩] }
            | Sect.sideGoals =>
              { st with
                sc := st.sc + 1
                ss := st.ss ++ [⟨st.sc + 1, pc.2, pc.1, spre ++ natRepr (st.sc + 1)⟩] }

/-- Source `jira_parser.parse_sprint_description`.
Returns the pair (goals, sideGoals). -/
def parse_sprint_description (description gpre spre : List Char) :
    List GoalDecl × List GoalDecl :=
  if description = [] then ([], [])
  else
    let lines := splitOnNl (strip description)
    let hasH := hasExplicitHeaders lines
    let fin := lines.foldl (processLine hasH gpre spre) ⟨none, 0, 0, [], []⟩
    (fin.gs, fin.ss)

/-- Source `status_mapper.STATUS_CATEGORY_MAP`. -/
def statusCategoryMap : List (List Char × List Char) :=
  [("done".toList, "Done".toList),
   ("indeterminate".toList, "In Progress".toList),
   ("new".toList, "To Do".toList)]

/-- Source `status_mapper.STATUS_NAME_FALLBACK`. -/
def statusNameFallback : List (List Char × List Char) :=
  [("done".toList, "Done".toList),
   ("gotowe".toList, "Done".toList),
   ("closed".toList, "Done".toList),
   ("zamknięte".toList, "Done".toList),
   ("zamkniete".toList, "Done".toList),
   ("resolved".toList, "Done".toList),
   ("rozwiązane".toList, "Done".toList),
   ("rozwiazane".toList, "Done".toList),
   ("complete".toList, "Done".toList),
   ("completed".toList, "Done".toList),
   ("zakończone".toList, "Done".toList),
   ("zakonczone".toList, "Done".toList),
   ("in progress".toList, "In Progress".toList),
   ("w trakcie".toList, "In Progress".toList),
   ("w toku".toList, "In Progress".toList),
   ("in development".toList, "In Progress".toList),
   ("in review".toList, "In Progress".toList),
   ("review".toList, "In Progress".toList),
   ("testing".toList, "In Progress".toList),
   ("testowanie".toList, "In Progress".toList),
   ("in testing".toList, "In Progress".toList),
   ("code review".toList, "In Progress".toList),
   ("przegląd kodu".toList, "In Progress".toList),
   ("przeglad kodu".toList, "In Progress".toList),
   ("to do".toList, "To Do".toList),
   ("do zrobienia".toList, "To Do".toList),
   ("backlog".toList, "To Do".toList),
   ("open".toList, "To Do".toList),
   ("new".toList, "To Do".toList),
   ("nowe".toList, "To Do".toList),
   ("otwarte".toList, "To Do".toList),
   ("selected for development".toList, "To Do".toList),
   ("ready".toList, "To Do".toList),
   ("gotowe do realizacji".toList, "To Do".toList)]

/-- Python dict lookup on an association list (first matching key wins; the
source dicts have distinct keys). -/
def tableLookup (k : List Char) : List (List Char × List Char) → Option (List Char)
  | [] => none
  | (a, b) :: rest => if k = a then some b else tableLookup k rest

/-- The `statusCategory` member of a Jira status field. -/
structure StatusCategory where
  key : Option (List Char)
deriving DecidableEq

/-- A Jira status field, with the two members the mapper reads.  A Python
value that is absent or `None` is modelled by the outer `Option` in
`map_jira_status`; an empty dict `{}` behaves identically to a dict whose
members are all missing, which is how it is modelled here. -/
structure StatusField where
  name : Option (List Char)
  statusCategory : Option StatusCategory
deriving DecidableEq

/-- Source `status_mapper.map_jira_status`. -/
def map_jira_status (status_field : Option StatusField) : List Char :=
  match status_field with
  | none => "To Do".toList
  | some f =>
    let viaCategory : Option (List Char) :=
      match f.statusCategory with
      | none => none
      | some sc => tableLookup (pyLower (sc.key.getD [])) statusCategoryMap
    match viaCategory with
    | some v => v
    | none =>
      let statusName := f.name.getD []
      if statusName = [] then "To Do".toList
      else
        match tableLookup (strip (pyLower statusName)) statusNameFallback with
        | some v => v
        | none => "To Do".toList

/-- Python `re.sub(r'[-_\s]', '', s)`: drop hyphens, underscores and
whitespace. -/
def normalizeLabel (s : List Char) : List Char :=
  s.filter (fun c => !(c = '-' || c = '_' || isWS c))

/-- One label against the candidate tag list (the source builds the candidate
set from already-lowercased tags): an exact match returns the lowered label,
otherwise the first candidate equal after separator stripping is returned. -/
def labelHit (tags : List (List Char)) (lowerLabel : List Char) : Option (List Char) :=
  if tags.contains lowerLabel then some lowerLabel
  else tags.find? (fun t => normalizeLabel lowerLabel == normalizeLabel t)

/-- The shared label-matching loop of `map_task_to_goal` and
`map_task_to_side_goal`: first label (in task label order) with a hit wins. -/
def matchTagCore (labels : List (List Char)) (tags : List (List Char)) :
    Option (List Char) :=
  match labels with
  | [] => none
  | l :: ls =>
    match labelHit tags (pyLower l) with
    | some t => some t
    | none => matchTagCore ls tags

/-- Source `jira_parser.map_task_to_goal`. -/
def map_task_to_goal (task_labels : List (List Char)) (goals : List GoalDecl) :
    Option (List Char) :=
  matchTagCore task_labels (goals.map (fun g => pyLower g.tag))

/-- Source `jira_parser.map_task_to_side_goal` (same algorithm over the
side-goal tag set). -/
def map_task_to_side_goal (task_labels : List (List Char))
    (side_goals : List GoalDecl) : Option (List Char) :=
  matchTagCore task_labels (side_goals.map (fun g => pyLower g.tag))

/-- A task, as produced by `transform_issue` (every field always present). -/
structure Task where
  key : List Char
  summary : List Char
  status : List Char
  labels : List (List Char)
  epic : Option (List Char)
  assignee : Option (List Char)
deriving DecidableEq

/-- Result record of `calculate_goal_progress`. -/
structure Progress where
  done : Nat
  inProgress : Nat
  todo : Nat
  total : Nat
  percent : Nat
deriving DecidableEq

/-- Round half to even (Python `round`) of the rational `num / den`, for
`den > 0`.  The source computes `round((done / total) * 100)` in floating
point; this model applies Python's round-half-to-even rule to the exact
rational value. -/
def roundHalfEven (num den : Nat) : Nat :=
  let q := num / den
  let r := num % den
  if 2 * r < den then q
  else if den < 2 * r then q + 1
  else if q % 2 = 0 then q else q + 1

/-- Source `jira_parser.calculate_goal_progress`.  The two counted statuses
are mutually exclusive, so the Python integer subtraction computing `todo`
never goes negative and Nat subtraction is faithful. -/
def calculate_goal_progress (goal_tasks : List Task) : Progress :=
  if goal_tasks = [] then ⟨0, 0, 0, 0, 0⟩
  else
    ⟨goal_tasks.countP (fun t => t.status == "Done".toList),
     goal_tasks.countP (fun t => t.status == "In Progress".toList),
     goal_tasks.length - goal_tasks.countP (fun t => t.status == "Done".toList) -
       goal_tasks.countP (fun t => t.status == "In Progress".toList),
     goal_tasks.length,
     roundHalfEven (100 * goal_tasks.countP (fun t => t.status == "Done".toList))
       goal_tasks.length⟩

/-- The per-goal `taskStats` sub-record of the output. -/
structure TaskStats where
  done : Nat
  inProgress : Nat
  todo : Nat
  total : Nat
deriving DecidableEq

/-- A goal record of the produced sprint JSON. -/
structure GoalRecord where
  id : Nat
  title : List Char
  client : Option (List Char)
  tag : List Char
  completed : Bool
  completionPercent : Nat
  stats : TaskStats
  tasks : List (List Char)
  comments : List (List Char)
deriving DecidableEq

/-- The two fields of a previously stored goal record that
`build_sprint_data` reads back. -/
structure PrevGoal where
  id : Nat
  comments : List (List Char)
deriving DecidableEq

/-- The fields of a previously stored sprint record that the sync scripts
read back (`.get` defaults of the source are modelled by total fields). -/
structure PrevSprint where
  goals : List PrevGoal
  sideGoals : List PrevGoal
  achievements : List Char
  nextSprintPlans : List Char
  closedAt : Option (List Char)
  status : List Char
deriving DecidableEq

/-- A raw Jira sprint, with the fields the scripts read. -/
structure RawSprint where
  id : Nat
  name : Option (List Char)
  goal : Option (List Char)
  state : Option (List Char)
  startDate : Option (List Char)
  endDate : Option (List Char)
deriving DecidableEq

/-- The produced sprint record. -/
structure StoredSprint where
  id : Nat
  name : List Char
  status : List Char
  startDate : List Char
  endDate : List Char
  goals : List GoalRecord
  sideGoals : List GoalRecord
  achievements : List Char
  tasks : List Task
  nextSprintPlans : List Char
  jiraBaseUrl : List Char
  jiraTimelineUrl : List Char
  closedAt : Option (List Char)
deriving DecidableEq

/-- Python `s.rstrip('/')`. -/
def rstripSlash (s : List Char) : List Char :=
  (s.reverse.dropWhile (fun c => c = '/')).reverse

/-- Python `s.split('T')[0]` applied when the date string is nonempty. -/
def datePart (s : List Char) : List Char :=
  if s = [] then s else s.takeWhile (fun c => c ≠ 'T')

/-- One iteration of the goal-building loop of `build_sprint_data`:
match tasks against the singleton declaration list `[goal_data]` (exactly the
source's per-declaration call `map_task_to_goal(task['labels'], [goal_data])`),
aggregate progress and merge stored comments of the record with the same
`id`.  `mt` is `map_task_to_goal` or `map_task_to_side_goal`. -/
def buildGoalRecord (tasks : List Task) (prevGoals : Option (List PrevGoal))
    (mt : List (List Char) → List GoalDecl → Option (List Char))
    (d : GoalDecl) : GoalRecord :=
  let goalTaskKeys := (tasks.filter (fun t => mt t.labels [d] == some d.tag)).map (fun t => t.key)
  let progress := calculate_goal_progress (tasks.filter (fun t => goalTaskKeys.contains t.key))
  let prevComments :=
    match prevGoals with
    | none => []
    | some pgs =>
      match pgs.find? (fun g => g.id == d.id) with
      | none => []
      | some g => g.comments
  { id := d.id
    title := d.title
    client := d.client
    tag := d.tag
    completed := progress.percent == 100
    completionPercent := progress.percent
    stats := ⟨progress.done, progress.inProgress, progress.todo, progress.total⟩
    tasks := goalTaskKeys
    comments := prevComments }

/-- Source `build_sprint_data` (both sync scripts; `sync_jira_to_repo.py`
inlines the default label letters `cel` / `extra` for `gpre` / `spre`).
The environment values read inside the Python function
(`JIRA_URL`, `JIRA_PROJECT_KEY`, `JIRA_BOARD_ID`) are passed as the first
three arguments. -/
def build_sprint_data (jiraUrlRaw projectKey boardId : List Char)
    (gpre spre : List Char) (sprint : RawSprint) (tasks : List Task)
    (existing_data : Option PrevSprint) : StoredSprint :=
  let description := sprint.goal.getD []
  let parsed := parse_sprint_description description gpre spre
  let goals := parsed.1.map
    (buildGoalRecord tasks (existing_data.map (fun e => e.goals)) map_task_to_goal)
  let sideGoals := parsed.2.map
    (buildGoalRecord tasks (existing_data.map (fun e => e.sideGoals))
      map_task_to_side_goal)
  let status :=
    if pyLower (sprint.state.getD []) = "closed".toList
    then "closed".toList else "active".toList
  let jiraUrl := rstripSlash jiraUrlRaw
  let timelineUrl := jiraUrl ++ "/jira/software/c/projects/".toList ++
    projectKey ++ "/boards/".toList ++ boardId ++ "/timeline".toList
  { id := sprint.id
    name := sprint.name.getD ("Sprint ".toList ++ natRepr sprint.id)
    status := status
    startDate := datePart (sprint.startDate.getD [])
    endDate := datePart (sprint.endDate.getD [])
    goals := goals
    sideGoals := sideGoals
    achievements := (existing_data.map (fun e => e.achievements)).getD []
    tasks := tasks
    nextSprintPlans := (existing_data.map (fun e => e.nextSprintPlans)).getD []
    jiraBaseUrl := jiraUrl
    jiraTimelineUrl := timelineUrl
    closedAt := (existing_data.map (fun e => e.closedAt)).getD none }


/-- Observable actions of a sync run: invoking `build_sprint_data`, writing
the per-sprint JSON file, and writing `current-sprint.json`. -/
inductive Eff where
  | buildCall : Eff
  | writeSprintFile : StoredSprint → Eff
  | writeCurrentFile : Nat → Bool → Eff
deriving DecidableEq

/-- Sprint selection shared by both `main` functions: a `--sprint-id`
argument (Python treats the value 0 as not given) selects `get_sprint`,
otherwise the active sprint is used; the second component is the exit code
used when nothing is found (1 for an explicit id, 0 for no active sprint). -/
def resolveTarget (sprintArg : Option Nat) (act : Option RawSprint)
    (byId : Nat → Option RawSprint) : Option RawSprint × Nat :=
  match sprintArg with
  | some sid => if sid ≠ 0 then (byId sid, 1) else (act, 0)
  | none => (act, 0)

/-- External responses and configuration seen by one run of
`sync_jira_to_repo.main`. -/
structure RepoEnv where
  verifyOk : Bool
  activeSprint : Option RawSprint
  sprintById : Nat → Option RawSprint
  tasks : List Task
  existingFile : Option (PrevSprint × List Char)
  saveSprintOk : Bool
  saveCurrentOk : Bool
  jiraUrl : List Char
  projectKey : List Char
  boardId : List Char

/-- Build-and-save tail of `sync_jira_to_repo.main` (after the freeze gate):
build the record, write the sprint file, then write `current-sprint.json`,
aborting with exit code 1 on a failed write. -/
def repoFinish (env : RepoEnv) (sprint : RawSprint)
    (existing : Option PrevSprint) : Nat × List Eff :=
  let data := build_sprint_data env.jiraUrl env.projectKey env.boardId
    "cel".toList "extra".toList sprint env.tasks existing
  let effs1 := [Eff.buildCall, Eff.writeSprintFile data]
  if env.saveSprintOk = false then (1, effs1)
  else
    let isActive := pyLower (sprint.state.getD []) = "active".toList
    let effs2 := effs1 ++ [Eff.writeCurrentFile sprint.id isActive]
    if env.saveCurrentOk = false then (1, effs2) else (0, effs2)

/-- Source `sync_jira_to_repo.main` as a function from external responses to
the exit code and the trace of builds and writes.  Fetches (`get_file`,
`get_sprint_issues`) are reads and leave no trace. -/
def repoSyncRun (sprintArg : Option Nat) (env : RepoEnv) : Nat × List Eff :=
  if env.verifyOk = false then (1, [])
  else
    let r := resolveTarget sprintArg env.activeSprint env.sprintById
    match r.1 with
    | none => (r.2, [])
    | some sprint =>
      match env.existingFile with
      | some exSha =>
        if exSha.1.status = "closed".toList then (0, [])
        else repoFinish env sprint (some exSha.1)
      | none => repoFinish env sprint none

/-- External responses and configuration seen by one run of
`sync_jira.main` (the local-files variant; label letter pairs come from
`config.json`). -/
structure LocalEnv where
  activeSprint : Option RawSprint
  sprintById : Nat → Option RawSprint
  tasks : List Task
  existingLocal : Option PrevSprint
  gpre : List Char
  spre : List Char
  jiraUrl : List Char
  projectKey : List Char
  boardId : List Char

/-- Build-and-save tail of `sync_jira.main`: the local file writes have no
failure branches in the source. -/
def localFinish (env : LocalEnv) (sprint : RawSprint)
    (existing : Option PrevSprint) : Nat × List Eff :=
  let data := build_sprint_data env.jiraUrl env.projectKey env.boardId
    env.gpre env.spre sprint env.tasks existing
  let isActive := pyLower (sprint.state.getD []) = "active".toList
  (0, [Eff.buildCall, Eff.writeSprintFile data,
       Eff.writeCurrentFile sprint.id isActive])

/-- Source `sync_jira.main` as a function from external responses to the
exit code and the trace of builds and writes. -/
def localSyncRun (sprintArg : Option Nat) (env : LocalEnv) : Nat × List Eff :=
  let r := resolveTarget sprintArg env.activeSprint env.sprintById
  match r.1 with
  | none => (r.2, [])
  | some sprint =>
    match env.existingLocal with
    | some ex =>
      if ex.status = "closed".toList then (0, [])
      else localFinish env sprint (some ex)
    | none => localFinish env sprint none

/-- Reference list builder: declarations with consecutive ids starting at
`k`, titles and clients extracted by `parse_client_from_text`, and tag
`pre ++ str(id)`. -/
def declsFrom (pre : List Char) (k : Nat) : List (List Char) → List GoalDecl
  | [] => []
  | c :: cs =>
    ⟨k, (parse_client_from_text c).2, (parse_client_from_text c).1,
      pre ++ natRepr k⟩ :: declsFrom pre (k + 1) cs

/-- Marker-mode selection: the stripped lines that are not consumed as
section headers (none of the six header phrases occurs in them), satisfy the
list-marker test `p`, and still have content once the marker is removed. -/
def markerCleaneds (p : List Char → Bool) : List (List Char) → List (List Char)
  | [] => []
  | l :: ls =>
    let s := strip l
    if containsAny sixPhrases (pyLower s) = false && p s &&
        decide (stripMarker s ≠ []) then
      stripMarker s :: markerCleaneds p ls
    else markerCleaneds p ls

/-- Header-mode reference assignment.  `cur` is the most recently seen
recognized header (`none` before any header or after an unrecognized
`##`/`**` header).  A line containing a header phrase only updates `cur`;
a qualifying list item is assigned to `cur` irrespective of its own marker
type; items with no current section are dropped.  Returns the cleaned
contents of the items assigned to section `sec`. -/
def headerAssigned (sec : Sect) : Option Sect → List (List Char) → List (List Char)
  | _, [] => []
  | cur, l :: ls =>
    let s := strip l
    if s = [] then headerAssigned sec cur ls
    else if containsAny goalPhrases (pyLower s) then
      headerAssigned sec (some Sect.goals) ls
    else if containsAny sidePhrases (pyLower s) then
      headerAssigned sec (some Sect.sideGoals) ls
    else if isSectionHeaderLine s then headerAssigned sec none ls
    else if (isNumberedItem s || isDashItem s) && cur = some sec &&
        decide (stripMarker s ≠ []) then
      stripMarker s :: headerAssigned sec cur ls
    else headerAssigned sec cur ls

/-- Marker-mode list items ignoring the header-phrase condition: used to
state C1, whose hypothesis already rules header phrases out. -/
def plainItems (p : List Char → Bool) (lines : List (List Char)) : List (List Char) :=
  (((lines.map strip).filter p).map stripMarker).filter (fun c => c ≠ [])


/-- Reference decomposition of a line containing bracketed groups: the text
is a leading bracket-free segment `u` followed by bracketed groups `g` each
with its following segment `v`: `u ++ [g1] ++ v1 ++ [g2] ++ v2 ++ ...`. -/
def assemble : List Char → List (List Char × List Char) → List Char
  | u, [] => u
  | u, (g, v) :: rest => u ++ '[' :: (g ++ ']' :: assemble v rest)

/-- Reference result of replacing every bracketed group, together with the
whitespace adjacent to it, by a single space: the groups are dropped and the
trimmed segments are joined by single spaces.  This definition never scans
for brackets; comparing it with `subBrackets` is the content of the amended
C3. -/
def subSpec : List Char → List (List Char × List Char) → List Char
  | u, [] => u
  | u, (_, v) :: rest => rtrim u ++ ' ' :: subSpec (ltrim v) rest

/-- Apply `f` to the second component of the last pair (the final segment of
a decomposed line, which overall stripping right-trims). -/
def mapLastSnd (f : List Char → List Char) :
    List (List Char × List Char) → List (List Char × List Char)
  | [] => []
  | [(g, v)] => [(g, f v)]
  | p :: q :: rest => p :: mapLastSnd f (q :: rest)

theorem takeWhile_add_dropWhile_length (p : Char → Bool) (l : List Char) :
    (l.takeWhile p).length + (l.dropWhile p).length = l.length := by
  induction l with
  | nil => simp
  | cons c rest ih =>
    by_cases h : p c
    · rw [List.takeWhile_cons_of_pos h, List.dropWhile_cons_of_pos h]
      simp only [List.length_cons]
      omega
    · rw [List.takeWhile_cons_of_neg h, List.dropWhile_cons_of_neg h]
      simp

theorem bracketAt_length {s g after : List Char}
    (h : bracketAt s = some (g, after)) : after.length + 2 ≤ s.length := by
  rw [bracketAt.eq_def] at h
  split at h
  next t =>
    split at h
    next after2 hdrop =>
      split at h
      · exact absurd h (by simp)
      next g1 gs1 htake =>
        simp only [Option.some.injEq, Prod.mk.injEq] at h
        obtain ⟨-, rfl⟩ := h
        have hlen := takeWhile_add_dropWhile_length (fun c => c ≠ ']') t
        rw [htake, hdrop] at hlen
        simp only [List.length_cons] at hlen
        simp only [List.length_cons]
        omega
    · exact absurd h (by simp)
  next => exact absurd h (by simp)

theorem length_dropWhile_le' (p : Char → Bool) (l : List Char) :
    (l.dropWhile p).length ≤ l.length := by
  induction l with
  | nil => simp
  | cons c rest ih =>
    by_cases h : p c
    · rw [List.dropWhile_cons_of_pos h]; exact Nat.le_succ_of_le ih
    · rw [List.dropWhile_cons_of_neg h]


theorem isWS_pyLowerChar (c : Char) : isWS (pyLowerChar c) = isWS c := by
  rw [pyLowerChar.eq_def]
  split <;> rfl

theorem dropWhile_isWS_map (s : List Char) :
    (s.map pyLowerChar).dropWhile isWS = (s.dropWhile isWS).map pyLowerChar := by
  rw [List.dropWhile_map]
  have h : (isWS ∘ pyLowerChar) = isWS := funext isWS_pyLowerChar
  rw [h]

theorem pyLower_ltrim (s : List Char) : ltrim (pyLower s) = pyLower (ltrim s) := by
  unfold ltrim pyLower
  exact dropWhile_isWS_map s

theorem pyLower_rtrim (s : List Char) : rtrim (pyLower s) = pyLower (rtrim s) := by
  unfold rtrim pyLower
  rw [← List.map_reverse, dropWhile_isWS_map, List.map_reverse]

theorem strip_pyLower (s : List Char) : strip (pyLower s) = pyLower (strip s) := by
  unfold strip
  rw [pyLower_ltrim, pyLower_rtrim]

theorem natReprGo_congr : ∀ n f1 f2, n < f1 → n < f2 →
    natReprGo f1 n = natReprGo f2 n := by
  intro n
  induction n using Nat.strong_induction_on with
  | _ n ih =>
    intro f1 f2 h1 h2
    match f1, f2 with
    | g1 + 1, g2 + 1 =>
      rw [natReprGo, natReprGo]
      by_cases hlt : n < 10
      · simp [hlt]
      · simp only [hlt, if_false]
        have hdiv : n / 10 < n := Nat.div_lt_self (by omega) (by omega)
        rw [ih (n / 10) hdiv g1 g2 (by omega) (by omega)]

theorem natRepr_eq (n : Nat) :
    natRepr n = if n < 10 then [Nat.digitChar n]
      else natRepr (n / 10) ++ [Nat.digitChar (n % 10)] := by
  rw [natRepr, natReprGo]
  by_cases hlt : n < 10
  · simp [hlt]
  · simp only [hlt, if_false]
    have hdiv : n / 10 < n := Nat.div_lt_self (by omega) (by omega)
    rw [natRepr, natReprGo_congr (n / 10) n (n / 10 + 1) hdiv (by omega)]

theorem natRepr_ne_nil (n : Nat) : natRepr n ≠ [] := by
  rw [natRepr_eq]
  by_cases hlt : n < 10 <;> simp [hlt]

theorem digitChar_inj_lt : ∀ a, a < 10 → ∀ b, b < 10 →
    Nat.digitChar a = Nat.digitChar b → a = b := by decide

theorem natRepr_inj : ∀ m n, natRepr m = natRepr n → m = n := by
  intro m
  induction m using Nat.strong_induction_on with
  | _ m ih =>
    intro n h
    rw [natRepr_eq, natRepr_eq n] at h
    by_cases hm : m < 10 <;> by_cases hn : n < 10
    · simp only [hm, hn, if_true] at h
      exact digitChar_inj_lt m hm n hn (by simpa using h)
    · exfalso
      simp only [hm, hn, if_true, if_false] at h
      have hl := congrArg List.length h
      have h1 := List.length_pos.mpr (natRepr_ne_nil (n / 10))
      simp only [List.length_append, List.length_cons, List.length_nil] at hl
      omega
    · exfalso
      simp only [hm, hn, if_true, if_false] at h
      have hl := congrArg List.length h
      have h1 := List.length_pos.mpr (natRepr_ne_nil (m / 10))
      simp only [List.length_append, List.length_cons, List.length_nil] at hl
      omega
    · simp only [hm, hn, if_false] at h
      have hlen : (natRepr (m / 10)).length = (natRepr (n / 10)).length := by
        have hl := congrArg List.length h
        simp only [List.length_append, List.length_cons, List.length_nil] at hl
        omega
      obtain ⟨h1, h2⟩ := List.append_inj h hlen
      have hdm : m / 10 < m := Nat.div_lt_self (by omega) (by omega)
      have hq := ih (m / 10) hdm (n / 10) h1
      have hr : m % 10 = n % 10 := by
        simp only [List.cons.injEq] at h2
        exact digitChar_inj_lt _ (Nat.mod_lt _ (by omega)) _ (Nat.mod_lt _ (by omega)) h2.1
      omega

theorem tableLookup_mem : ∀ (k v : List Char) (t : List (List Char × List Char)),
    tableLookup k t = some v → v ∈ t.map Prod.snd := by
  intro k v t
  induction t with
  | nil => intro h; exact absurd h (by simp [tableLookup])
  | cons p rest ih =>
    intro h
    rw [tableLookup] at h
    by_cases hk : k = p.1
    · simp only [hk, if_true] at h
      simp only [Option.some.injEq] at h
      simp [← h]
    · rw [if_neg] at h
      · simpa using Or.inr (ih h)
      · cases p
        simpa using hk

theorem statusCategoryMap_vals : ∀ v ∈ statusCategoryMap.map Prod.snd,
    v = "Done".toList ∨ v = "In Progress".toList ∨ v = "To Do".toList := by
  decide

theorem statusNameFallback_vals : ∀ v ∈ statusNameFallback.map Prod.snd,
    v = "Done".toList ∨ v = "In Progress".toList ∨ v = "To Do".toList := by
  decide

/-- C6: `map_jira_status` is total with values among the three canonical
statuses; absent input maps to "To Do"; a recognized `statusCategory.key`
(case-insensitive `done`/`indeterminate`/`new`) decides the result regardless
of `name`; otherwise the trimmed lowercased `name` is looked up in the fixed
synonym table, defaulting to "To Do"; in particular a `done` category key
yields "Done" whatever the name, `{name: "Backlog"}` yields "To Do" and
`None` yields "To Do". -/
theorem c6_map_jira_status :
    (∀ f : Option StatusField,
       map_jira_status f = "Done".toList ∨
       map_jira_status f = "In Progress".toList ∨
       map_jira_status f = "To Do".toList) ∧
    map_jira_status none = "To Do".toList ∧
    (∀ nm k, pyLower k = "done".toList →
       map_jira_status (some ⟨nm, some ⟨some k⟩⟩) = "Done".toList) ∧
    (∀ nm k, pyLower k = "indeterminate".toList →
       map_jira_status (some ⟨nm, some ⟨some k⟩⟩) = "In Progress".toList) ∧
    (∀ nm k, pyLower k = "new".toList →
       map_jira_status (some ⟨nm, some ⟨some k⟩⟩) = "To Do".toList) ∧
    (∀ nm sco v,
       (∀ sc, sco = some sc →
         tableLookup (pyLower (sc.key.getD [])) statusCategoryMap = none) →
       nm ≠ [] →
       tableLookup (strip (pyLower nm)) statusNameFallback = some v →
       map_jira_status (some ⟨some nm, sco⟩) = v) ∧
    (∀ nm sco,
       (∀ sc, sco = some sc →
         tableLookup (pyLower (sc.key.getD [])) statusCategoryMap = none) →
       tableLookup (strip (pyLower (nm.getD []))) statusNameFallback = none →
       map_jira_status (some ⟨nm, sco⟩) = "To Do".toList) ∧
    map_jira_status (some ⟨some "Backlog".toList, none⟩) = "To Do".toList := by
  refine ⟨?_, rfl, ?_, ?_, ?_, ?_, ?_, rfl⟩
  · intro f
    match f with
    | none => exact Or.inr (Or.inr rfl)
    | some fv =>
      simp only [map_jira_status]
      split
      next v heq =>
        split at heq
        · exact absurd heq (by simp)
        next sc hsc =>
          exact statusCategoryMap_vals v (tableLookup_mem _ v _ heq)
      next heq =>
        split
        · exact Or.inr (Or.inr rfl)
        · split
          next v heq2 => exact statusNameFallback_vals v (tableLookup_mem _ v _ heq2)
          next => exact Or.inr (Or.inr rfl)
  · intro nm k hk
    simp only [map_jira_status, Option.getD_some]
    rw [hk]
    rfl
  · intro nm k hk
    simp only [map_jira_status, Option.getD_some]
    rw [hk]
    rfl
  · intro nm k hk
    simp only [map_jira_status, Option.getD_some]
    rw [hk]
    rfl
  · intro nm sco v hmiss hne hfb
    simp only [map_jira_status]
    split
    next w heq =>
      split at heq
      · exact absurd heq (by simp)
      next =>
        rename_i sc
        rw [hmiss sc rfl] at heq
        exact absurd heq (by simp)
    next =>
      simp only [Option.getD_some]
      rw [if_neg hne, hfb]
  · intro nm sco hmiss hfb
    simp only [map_jira_status]
    split
    next w heq =>
      split at heq
      · exact absurd heq (by simp)
      next =>
        rename_i sc
        rw [hmiss sc rfl] at heq
        exact absurd heq (by simp)
    next =>
      split
      · rfl
      · rw [hfb]

/-- Witness for C6: concrete instances discharging the hypotheses. -/
theorem c6_map_jira_status_witness :
    map_jira_status (some ⟨some "Gotowe".toList, some ⟨some "DONE".toList⟩⟩) =
      "Done".toList ∧
    map_jira_status (some ⟨some "W trakcie".toList, none⟩) =
      "In Progress".toList := by
  constructor
  · exact c6_map_jira_status.2.2.1 (some "Gotowe".toList) "DONE".toList (by rfl)
  · exact c6_map_jira_status.2.2.2.2.2.1 "W trakcie".toList none
      "In Progress".toList (by intro sc h; cases h) (by decide) (by rfl)

theorem labelHit_mem {tags : List (List Char)} {ll t : List Char}
    (h : labelHit tags ll = some t) : t ∈ tags := by
  unfold labelHit at h
  by_cases hc : tags.contains ll
  · rw [if_pos hc] at h
    simp only [Option.some.injEq] at h
    subst h
    simpa using hc
  · rw [if_neg hc] at h
    exact List.mem_of_find?_eq_some h

/-- C8: the label matchers are the shared first-match loop over the
lowercased candidate tag set; any returned value is one of the candidates;
the result is null exactly when no label hits; the first label (in task
label order) with a hit decides the result; an exact case-insensitive
match takes precedence and returns the lowered label; and the two
spec examples hold. -/
theorem c8_tag_matching :
    (∀ labels gs, map_task_to_goal labels gs =
       matchTagCore labels (gs.map (fun g => pyLower g.tag))) ∧
    (∀ labels sgs, map_task_to_side_goal labels sgs =
       matchTagCore labels (sgs.map (fun g => pyLower g.tag))) ∧
    (∀ labels tags t, matchTagCore labels tags = some t → t ∈ tags) ∧
    (∀ labels tags, matchTagCore labels tags = none ↔
       ∀ l ∈ labels, labelHit tags (pyLower l) = none) ∧
    (∀ ls1 l ls2 tags t, (∀ l2 ∈ ls1, labelHit tags (pyLower l2) = none) →
       labelHit tags (pyLower l) = some t →
       matchTagCore (ls1 ++ l :: ls2) tags = some t) ∧
    (∀ tags l, pyLower l ∈ tags → labelHit tags (pyLower l) = some (pyLower l)) ∧
    map_task_to_goal ["cel-1".toList] [⟨1, [], none, "cel1".toList⟩] =
      some "cel1".toList ∧
    map_task_to_goal ["other".toList] [⟨1, [], none, "cel1".toList⟩] = none := by
  refine ⟨fun _ _ => rfl, fun _ _ => rfl, ?_, ?_, ?_, ?_, by decide, by decide⟩
  · intro labels tags t
    induction labels with
    | nil => intro h; exact absurd h (by simp [matchTagCore])
    | cons l ls ih =>
      intro h
      rw [matchTagCore] at h
      cases hh : labelHit tags (pyLower l) with
      | some u =>
        rw [hh] at h
        simp only [Option.some.injEq] at h
        subst h
        exact labelHit_mem hh
      | none =>
        rw [hh] at h
        exact ih h
  · intro labels tags
    induction labels with
    | nil => simp [matchTagCore]
    | cons l ls ih =>
      rw [matchTagCore]
      cases hh : labelHit tags (pyLower l) with
      | some u => simp [hh]
      | none => simpa [hh] using ih
  · intro ls1 l ls2 tags t hnone hhit
    induction ls1 with
    | nil =>
      rw [List.nil_append, matchTagCore, hhit]
    | cons l2 rest ih =>
      rw [List.cons_append, matchTagCore, hnone l2 (by simp)]
      exact ih (fun x hx => hnone x (by simp [hx]))
  · intro tags l hmem
    unfold labelHit
    rw [if_pos (by simpa using hmem)]

/-- Witness for C8: the first-match property applied at a concrete input
with its hypotheses discharged. -/
theorem c8_tag_matching_witness :
    matchTagCore ["other".toList, "cel-1".toList] ["cel1".toList] =
      some "cel1".toList :=
  c8_tag_matching.2.2.2.2.1 ["other".toList] "cel-1".toList []
    ["cel1".toList] "cel1".toList (by decide) (by decide)

theorem subBracketsGo_congr : ∀ f1 s f2, s.length ≤ f1 → s.length ≤ f2 →
    subBracketsGo f1 s = subBracketsGo f2 s := by
  intro f1
  induction f1 with
  | zero =>
    intro s f2 h1 h2
    have hs : s = [] := List.eq_nil_of_length_eq_zero (by omega)
    subst hs
    cases f2 <;> rfl
  | succ f ih =>
    intro s f2 h1 h2
    cases s with
    | nil => cases f2 <;> rfl
    | cons c rest =>
      cases f2 with
      | zero => simp at h2
      | succ g =>
        rw [subBracketsGo, subBracketsGo]
        cases hb : bracketAt ((c :: rest).dropWhile isWS) with
        | some pair =>
          obtain ⟨g1, after⟩ := pair
          simp only
          have hlen := bracketAt_length hb
          have hd1 := length_dropWhile_le' isWS (c :: rest)
          have hd2 := length_dropWhile_le' isWS after
          simp only [List.length_cons] at h1 h2 hd1
          rw [ih (after.dropWhile isWS) g (by omega) (by omega)]
        | none =>
          simp only
          simp only [List.length_cons] at h1 h2
          rw [ih rest g (by omega) (by omega)]

theorem subBrackets_cons (c : Char) (rest : List Char) :
    subBrackets (c :: rest) =
      match bracketAt ((c :: rest).dropWhile isWS) with
      | some (_, after) => ' ' :: subBrackets (after.dropWhile isWS)
      | none => c :: subBrackets rest := by
  rw [subBrackets, List.length_cons, subBracketsGo]
  cases hb : bracketAt ((c :: rest).dropWhile isWS) with
  | some pair =>
    obtain ⟨g1, after⟩ := pair
    simp only
    have hlen := bracketAt_length hb
    have hd1 := length_dropWhile_le' isWS (c :: rest)
    have hd2 := length_dropWhile_le' isWS after
    simp only [List.length_cons] at hd1
    rw [subBrackets]
    refine congrArg (' ' :: ·) ?_
    exact subBracketsGo_congr rest.length (after.dropWhile isWS)
      (after.dropWhile isWS).length (by omega) le_rfl
  | none =>
    simp only
    rw [subBrackets]

theorem countP_tripartition (p q : Task → Bool) (l : List Task)
    (hpq : ∀ t, ¬(p t = true ∧ q t = true)) :
    l.countP p + l.countP q + l.countP (fun t => !(p t) && !(q t)) = l.length := by
  induction l with
  | nil => simp
  | cons t rest ih =>
    simp only [List.countP_cons, List.length_cons]
    cases hp : p t <;> cases hq : q t
    · simp only [Bool.not_false, Bool.and_self]
      simp
      omega
    · simp only [Bool.not_false, Bool.not_true, Bool.and_false]
      simp
      omega
    · simp only [Bool.not_false, Bool.not_true, Bool.false_and]
      simp
      omega
    · exact absurd ⟨hp, hq⟩ (hpq t)

/-- C4: aggregation of the empty task list is all zeros; otherwise `total` is
the list length, `done` and `inProgress` count exactly the two canonical
statuses, `todo` counts every task whose status is neither (so the three
counts sum to the total), `percent` is the round-half-to-even of
`done/total*100`, statuses `["Done","Done","In Progress"]` give percent 67,
and every goal record built by `build_sprint_data` has `completed` true
exactly when its completion percent is 100. -/
theorem c4_progress_aggregation :
    calculate_goal_progress [] = ⟨0, 0, 0, 0, 0⟩ ∧
    (∀ ts : List Task, ts ≠ [] →
       (calculate_goal_progress ts).total = ts.length ∧
       (calculate_goal_progress ts).done =
         ts.countP (fun t => t.status == "Done".toList) ∧
       (calculate_goal_progress ts).inProgress =
         ts.countP (fun t => t.status == "In Progress".toList) ∧
       (calculate_goal_progress ts).todo =
         ts.countP (fun t => !(t.status == "Done".toList) &&
           !(t.status == "In Progress".toList)) ∧
       (calculate_goal_progress ts).done + (calculate_goal_progress ts).inProgress +
         (calculate_goal_progress ts).todo = (calculate_goal_progress ts).total ∧
       (calculate_goal_progress ts).percent =
         roundHalfEven (100 * (calculate_goal_progress ts).done)
           (calculate_goal_progress ts).total) ∧
    (calculate_goal_progress
      [⟨"a".toList, [], "Done".toList, [], none, none⟩,
       ⟨"b".toList, [], "Done".toList, [], none, none⟩,
       ⟨"c".toList, [], "In Progress".toList, [], none, none⟩]).percent = 67 ∧
    (∀ jU pK bI gp sp sprint tasks ex,
       ∀ g ∈ (build_sprint_data jU pK bI gp sp sprint tasks ex).goals ++
          (build_sprint_data jU pK bI gp sp sprint tasks ex).sideGoals,
         (g.completed = true ↔ g.completionPercent = 100)) := by
  refine ⟨rfl, ?_, by decide, ?_⟩
  · intro ts hne
    have htri := countP_tripartition (fun t => t.status == "Done".toList)
      (fun t => t.status == "In Progress".toList) ts ?hex
    case hex =>
      intro t ⟨h1, h2⟩
      rw [beq_iff_eq] at h1 h2
      rw [h1] at h2
      exact absurd h2 (by decide)
    rw [calculate_goal_progress, if_neg hne]
    dsimp only
    refine ⟨rfl, rfl, rfl, by omega, by omega, rfl⟩
  · intro jU pK bI gp sp sprint tasks ex g hg
    rw [List.mem_append] at hg
    have hrec : ∀ tasks2 pg mt d, g = buildGoalRecord tasks2 pg mt d →
        (g.completed = true ↔ g.completionPercent = 100) := by
      intro tasks2 pg mt d hgd
      subst hgd
      rw [buildGoalRecord.eq_def]
      dsimp only
      exact beq_iff_eq
    cases hg with
    | inl h =>
      rw [build_sprint_data] at h
      simp only [List.mem_map] at h
      obtain ⟨d, -, hd⟩ := h
      exact hrec _ _ _ d hd.symm
    | inr h =>
      rw [build_sprint_data] at h
      simp only [List.mem_map] at h
      obtain ⟨d, -, hd⟩ := h
      exact hrec _ _ _ d hd.symm

/-- Witness for C4: a concrete nonempty task list. -/
theorem c4_progress_aggregation_witness :
    (([⟨"a".toList, [], "Done".toList, [], none, none⟩] : List Task) ≠ []) ∧
    (calculate_goal_progress
      [⟨"a".toList, [], "Done".toList, [], none, none⟩]).total = 1 :=
  ⟨by decide,
   (c4_progress_aggregation.2.1
     [⟨"a".toList, [], "Done".toList, [], none, none⟩] (by decide)).1⟩

theorem buildGoalRecord_comments (tasks : List Task)
    (pg : Option (List PrevGoal))
    (mt : List (List Char) → List GoalDecl → Option (List Char)) (d : GoalDecl) :
    (buildGoalRecord tasks pg mt d).comments =
      (match pg with
       | none => []
       | some pgs =>
         match pgs.find? (fun g => g.id == d.id) with
         | none => []
         | some g => g.comments) ∧
    (buildGoalRecord tasks pg mt d).id = d.id := by
  rw [buildGoalRecord.eq_def]
  dsimp only
  exact ⟨rfl, rfl⟩

/-- C5: for every rebuilt goal (and side goal) with id `i`, the comments are
carried over verbatim from the stored goal (side goal) with the same id when
one exists, and are empty otherwise; `achievements`, `nextSprintPlans` and
`closedAt` are carried over verbatim from the existing record, defaulting to
empty, empty and null when there is no existing record. -/
theorem c5_merge_preservation :
    ∀ jU pK bI gp sp sprint tasks ex,
      (∀ g ∈ (build_sprint_data jU pK bI gp sp sprint tasks ex).goals,
        (ex = none → g.comments = []) ∧
        (∀ e, ex = some e →
          (e.goals.find? (fun pg => pg.id == g.id) = none → g.comments = []) ∧
          (∀ pg, e.goals.find? (fun pg2 => pg2.id == g.id) = some pg →
             g.comments = pg.comments))) ∧
      (∀ g ∈ (build_sprint_data jU pK bI gp sp sprint tasks ex).sideGoals,
        (ex = none → g.comments = []) ∧
        (∀ e, ex = some e →
          (e.sideGoals.find? (fun pg => pg.id == g.id) = none → g.comments = []) ∧
          (∀ pg, e.sideGoals.find? (fun pg2 => pg2.id == g.id) = some pg →
             g.comments = pg.comments))) ∧
      (build_sprint_data jU pK bI gp sp sprint tasks ex).achievements =
        (match ex with | some e => e.achievements | none => []) ∧
      (build_sprint_data jU pK bI gp sp sprint tasks ex).nextSprintPlans =
        (match ex with | some e => e.nextSprintPlans | none => []) ∧
      (build_sprint_data jU pK bI gp sp sprint tasks ex).closedAt =
        (match ex with | some e => e.closedAt | none => none) := by
  intro jU pK bI gp sp sprint tasks ex
  have hgoal : ∀ (sel : PrevSprint → List PrevGoal)
      (mt : List (List Char) → List GoalDecl → Option (List Char))
      (d : GoalDecl) (g : GoalRecord),
      buildGoalRecord tasks (ex.map sel) mt d = g →
      (ex = none → g.comments = []) ∧
      (∀ e, ex = some e →
        ((sel e).find? (fun pg => pg.id == g.id) = none → g.comments = []) ∧
        (∀ pg, (sel e).find? (fun pg2 => pg2.id == g.id) = some pg →
           g.comments = pg.comments)) := by
    intro sel mt d g hgd
    have hid : g.id = d.id := by rw [← hgd]; exact (buildGoalRecord_comments _ _ _ _).2
    have hcm := (buildGoalRecord_comments tasks (ex.map sel) mt d).1
    rw [hgd] at hcm
    constructor
    · intro hexn
      subst hexn
      exact hcm
    · intro e hexe
      subst hexe
      simp only [Option.map_some'] at hcm
      have hpred : (fun pg : PrevGoal => pg.id == g.id) =
          (fun pg : PrevGoal => pg.id == d.id) := by
        funext pg
        rw [hid]
      constructor
      · intro hfind
        rw [hpred] at hfind
        rw [hcm, hfind]
      · intro pg hfind
        rw [hpred] at hfind
        rw [hcm, hfind]
  refine ⟨?_, ?_, ?_, ?_, ?_⟩
  · intro g hg
    rw [build_sprint_data] at hg
    simp only [List.mem_map] at hg
    obtain ⟨d, -, hgd⟩ := hg
    exact hgoal (fun e => e.goals) _ d g hgd
  · intro g hg
    rw [build_sprint_data] at hg
    simp only [List.mem_map] at hg
    obtain ⟨d, -, hgd⟩ := hg
    exact hgoal (fun e => e.sideGoals) _ d g hgd
  · rw [build_sprint_data]
    dsimp only
    cases ex <;> rfl
  · rw [build_sprint_data]
    dsimp only
    cases ex <;> rfl
  · rw [build_sprint_data]
    dsimp only
    cases ex <;> rfl

/-- Witness for C5: a concrete build whose only goal inherits the stored
comments of the goal with the same id. -/
theorem c5_merge_preservation_witness :
    ∀ g ∈ (build_sprint_data [] [] [] "cel".toList "extra".toList
        ⟨7, none, some "1. x".toList, none, none, none⟩ []
        (some ⟨[⟨1, ["note".toList]⟩], [], [], [], none, "active".toList⟩)).goals,
      g.comments = ["note".toList] := by
  intro g hg
  have h := ((c5_merge_preservation [] [] [] "cel".toList "extra".toList
    ⟨7, none, some "1. x".toList, none, none, none⟩ []
    (some ⟨[⟨1, ["note".toList]⟩], [], [], [], none, "active".toList⟩)).1 g hg).2
    ⟨[⟨1, ["note".toList]⟩], [], [], [], none, "active".toList⟩ rfl
  have hid : g.id = 1 := by
    have hmem := hg
    rw [build_sprint_data] at hmem
    simp only [List.mem_map] at hmem
    obtain ⟨d, hd, hgd⟩ := hmem
    have hp : (parse_sprint_description ((some "1. x".toList).getD [])
        "cel".toList "extra".toList).1 =
        [(⟨1, "x".toList, none, "cel1".toList⟩ : GoalDecl)] := by rfl
    rw [hp] at hd
    simp only [List.mem_singleton] at hd
    rw [← hgd, (buildGoalRecord_comments _ _ _ d).2, hd]
  have hfind : List.find? (fun pg2 => pg2.id == g.id)
      [(⟨1, ["note".toList]⟩ : PrevGoal)] = some ⟨1, ["note".toList]⟩ := by
    rw [hid]
    rfl
  exact h.2 ⟨1, ["note".toList]⟩ hfind

/-- C2: for every sync run (either orchestrator) whose stored record for the
target sprint exists with status "closed", the run exits successfully (code 0)
with an empty trace: `build_sprint_data` is never invoked and neither file is
written. -/
theorem c2_closed_freeze_gate :
    (∀ (arg : Option Nat) (env : RepoEnv) (s : RawSprint) (ex : PrevSprint)
       (sha : List Char),
       env.verifyOk = true →
       (resolveTarget arg env.activeSprint env.sprintById).1 = some s →
       env.existingFile = some (ex, sha) →
       ex.status = "closed".toList →
       repoSyncRun arg env = (0, [])) ∧
    (∀ (arg : Option Nat) (env : LocalEnv) (s : RawSprint) (ex : PrevSprint),
       (resolveTarget arg env.activeSprint env.sprintById).1 = some s →
       env.existingLocal = some ex →
       ex.status = "closed".toList →
       localSyncRun arg env = (0, [])) := by
  constructor
  · intro arg env s ex sha hver hres hex hclosed
    rw [repoSyncRun]
    rw [hver]
    simp only [Bool.true_eq_false, if_false]
    rw [hres, hex]
    simp only
    rw [if_pos hclosed]
  · intro arg env s ex hres hex hclosed
    rw [localSyncRun]
    rw [hres, hex]
    simp only
    rw [if_pos hclosed]

/-- Witness for C2: a concrete closed stored record makes a concrete run a
successful no-op. -/
theorem c2_closed_freeze_gate_witness :
    repoSyncRun none
      ⟨true, some ⟨5, none, none, none, none, none⟩, fun _ => none, [],
       some (⟨[], [], [], [], none, "closed".toList⟩, "sha".toList),
       true, true, [], [], []⟩ = (0, []) :=
  c2_closed_freeze_gate.1 none
    ⟨true, some ⟨5, none, none, none, none, none⟩, fun _ => none, [],
     some (⟨[], [], [], [], none, "closed".toList⟩, "sha".toList),
     true, true, [], [], []⟩
    ⟨5, none, none, none, none, none⟩
    ⟨[], [], [], [], none, "closed".toList⟩ "sha".toList rfl rfl rfl rfl

theorem processLine_shapes (hasH : Bool) (gpre spre : List Char) (st : ParseSt)
    (raw : List Char) :
    (∃ o, processLine hasH gpre spre st raw = { st with sect := o }) ∨
    (∃ t c, processLine hasH gpre spre st raw =
       { st with
         gc := st.gc + 1
         gs := st.gs ++ [⟨st.gc + 1, t, c, gpre ++ natRepr (st.gc + 1)⟩] }) ∨
    (∃ t c, processLine hasH gpre spre st raw =
       { st with
         sc := st.sc + 1
         ss := st.ss ++ [⟨st.sc + 1, t, c, spre ++ natRepr (st.sc + 1)⟩] }) := by
  rw [processLine.eq_def]
  dsimp only
  split
  · exact Or.inl ⟨st.sect, rfl⟩
  split
  · exact Or.inl ⟨some Sect.goals, rfl⟩
  split
  · exact Or.inl ⟨some Sect.sideGoals, rfl⟩
  split
  · exact Or.inl ⟨none, rfl⟩
  split
  · exact Or.inl ⟨st.sect, rfl⟩
  split
  · exact Or.inl ⟨st.sect, rfl⟩
  next sec _ =>
    split
    · exact Or.inl ⟨st.sect, rfl⟩
    · cases sec with
      | goals => exact Or.inr (Or.inl ⟨_, _, rfl⟩)
      | sideGoals => exact Or.inr (Or.inr ⟨_, _, rfl⟩)

theorem foldl_parse_invariant (hasH : Bool) (gpre spre : List Char) :
    ∀ (lines : List (List Char)) (st : ParseSt),
      ∃ L M,
        (lines.foldl (processLine hasH gpre spre) st).gs = st.gs ++ L ∧
        (lines.foldl (processLine hasH gpre spre) st).ss = st.ss ++ M ∧
        (lines.foldl (processLine hasH gpre spre) st).gc = st.gc + L.length ∧
        (lines.foldl (processLine hasH gpre spre) st).sc = st.sc + M.length ∧
        (∀ k (hk : k < L.length), (L.get ⟨k, hk⟩).id = st.gc + k + 1 ∧
            (L.get ⟨k, hk⟩).tag = gpre ++ natRepr (st.gc + k + 1)) ∧
        (∀ k (hk : k < M.length), (M.get ⟨k, hk⟩).id = st.sc + k + 1 ∧
            (M.get ⟨k, hk⟩).tag = spre ++ natRepr (st.sc + k + 1)) := by
  intro lines
  induction lines with
  | nil =>
    intro st
    exact ⟨[], [], by simp, by simp, by simp, by simp, by simp, by simp⟩
  | cons l ls ih =>
    intro st
    rw [List.foldl_cons]
    rcases processLine_shapes hasH gpre spre st l with ⟨o, ho⟩ | ⟨t, c, ho⟩ | ⟨t, c, ho⟩ <;>
      rw [ho]
    · obtain ⟨L, M, h1, h2, h3, h4, h5, h6⟩ := ih { st with sect := o }
      exact ⟨L, M, h1, h2, h3, h4, h5, h6⟩
    · obtain ⟨L, M, h1, h2, h3, h4, h5, h6⟩ := ih
        { st with
          gc := st.gc + 1
          gs := st.gs ++ [⟨st.gc + 1, t, c, gpre ++ natRepr (st.gc + 1)⟩] }
      refine ⟨⟨st.gc + 1, t, c, gpre ++ natRepr (st.gc + 1)⟩ :: L, M, ?_, h2, ?_, h4, ?_, h6⟩
      · rw [h1, List.append_assoc]
        rfl
      · rw [h3]
        dsimp only
        simp only [List.length_cons]
        omega
      · intro k hk
        match k with
        | 0 => exact ⟨rfl, rfl⟩
        | k' + 1 =>
          simp only [List.length_cons] at hk
          have hk' : k' < L.length := by omega
          have h5k := h5 k' hk'
          dsimp only at h5k
          simp only [List.get_cons_succ]
          constructor
          · rw [h5k.1]
            omega
          · rw [h5k.2]
            congr 2
            omega
    · obtain ⟨L, M, h1, h2, h3, h4, h5, h6⟩ := ih
        { st with
          sc := st.sc + 1
          ss := st.ss ++ [⟨st.sc + 1, t, c, spre ++ natRepr (st.sc + 1)⟩] }
      refine ⟨L, ⟨st.sc + 1, t, c, spre ++ natRepr (st.sc + 1)⟩ :: M, h1, ?_, h3, ?_, h5, ?_⟩
      · rw [h2, List.append_assoc]
        rfl
      · rw [h4]
        dsimp only
        simp only [List.length_cons]
        omega
      · intro k hk
        match k with
        | 0 => exact ⟨rfl, rfl⟩
        | k' + 1 =>
          simp only [List.length_cons] at hk
          have hk' : k' < M.length := by omega
          have h6k := h6 k' hk'
          dsimp only at h6k
          simp only [List.get_cons_succ]
          constructor
          · rw [h6k.1]
            omega
          · rw [h6k.2]
            congr 2
            omega

theorem decls_map_of_pointwise (L : List GoalDecl) (pre : List Char) (base : Nat)
    (h : ∀ k (hk : k < L.length), (L.get ⟨k, hk⟩).id = base + k + 1 ∧
         (L.get ⟨k, hk⟩).tag = pre ++ natRepr (base + k + 1)) :
    L.map (fun g => g.id) = List.range' (base + 1) L.length ∧
    L.map (fun g => g.tag) =
      (List.range' (base + 1) L.length).map (fun n => pre ++ natRepr n) := by
  constructor
  · apply List.ext_get
    · simp [List.length_range']
    · intro n h1 h2
      rw [List.get_map, List.get_range']
      rw [(h n (by simpa using h1)).1]
      omega
  · apply List.ext_get
    · simp [List.length_range']
    · intro n h1 h2
      rw [List.get_map, List.get_map, List.get_range']
      rw [(h n (by simpa using h1)).2]
      dsimp only
      congr 2
      omega

theorem tagOfNat_injective (pre : List Char) :
    Function.Injective (fun n => pre ++ natRepr n) := by
  intro a b hab
  exact natRepr_inj a b (List.append_cancel_left hab)

/-- C9: in every parse result and for every pair of label letter strings,
each section's declarations carry ids 1, 2, ..., n in list order, with tag
equal to the section's letters followed by the decimal id; the two counters
are independent (each section numbered from 1); consequently tags are
unique within each section. -/
theorem c9_ids_tags_unique (desc gpre spre : List Char) :
    (parse_sprint_description desc gpre spre).1.map (fun g => g.id) =
      List.range' 1 (parse_sprint_description desc gpre spre).1.length ∧
    (parse_sprint_description desc gpre spre).1.map (fun g => g.tag) =
      (List.range' 1 (parse_sprint_description desc gpre spre).1.length).map
        (fun n => gpre ++ natRepr n) ∧
    (parse_sprint_description desc gpre spre).2.map (fun g => g.id) =
      List.range' 1 (parse_sprint_description desc gpre spre).2.length ∧
    (parse_sprint_description desc gpre spre).2.map (fun g => g.tag) =
      (List.range' 1 (parse_sprint_description desc gpre spre).2.length).map
        (fun n => spre ++ natRepr n) ∧
    ((parse_sprint_description desc gpre spre).1.map (fun g => g.tag)).Nodup ∧
    ((parse_sprint_description desc gpre spre).2.map (fun g => g.tag)).Nodup := by
  by_cases hd : desc = []
  · subst hd
    simp [parse_sprint_description]
  · rw [parse_sprint_description, if_neg hd]
    dsimp only
    obtain ⟨L, M, h1, h2, h3, h4, h5, h6⟩ :=
      foldl_parse_invariant (hasExplicitHeaders (splitOnNl (strip desc))) gpre spre
        (splitOnNl (strip desc)) ⟨none, 0, 0, [], []⟩
    dsimp only at h1 h2 h3 h4 h5 h6
    rw [List.nil_append] at h1 h2
    rw [h1, h2]
    obtain ⟨hg1, hg2⟩ := decls_map_of_pointwise L gpre 0 h5
    obtain ⟨hs1, hs2⟩ := decls_map_of_pointwise M spre 0 h6
    refine ⟨hg1, hg2, hs1, hs2, ?_, ?_⟩
    · rw [hg2]
      exact (List.nodup_range' _ _).map (tagOfNat_injective gpre)
    · rw [hs2]
      exact (List.nodup_range' _ _).map (tagOfNat_injective spre)

theorem containsAny_append (a b : List (List Char)) (s : List Char) :
    containsAny (a ++ b) s = (containsAny a s || containsAny b s) := by
  unfold containsAny
  exact List.any_append

theorem containsAny_false_of_sub {ks1 ks2 : List (List Char)} {s : List Char}
    (hsub : ∀ k ∈ ks1, k ∈ ks2) (h : containsAny ks2 s = false) :
    containsAny ks1 s = false := by
  unfold containsAny at h ⊢
  rw [List.any_eq_false] at h ⊢
  intro k hk
  exact h k (hsub k hk)

theorem headerline_not_item {s : List Char} (h : isSectionHeaderLine s = true) :
    isNumberedItem s = false ∧ isDashItem s = false := by
  match s with
  | [] => exact absurd h (by decide)
  | [a] =>
    refine ⟨?_, rfl⟩
    unfold isSectionHeaderLine at h
    simp only [List.isPrefixOf, Bool.and_eq_true, Bool.or_eq_true, beq_iff_eq] at h
    rcases h with ⟨ha, hrest⟩ | ⟨ha, hrest⟩ <;> simp at hrest
  | a :: b :: t =>
    unfold isSectionHeaderLine at h
    simp only [List.isPrefixOf, Bool.and_eq_true, Bool.or_eq_true, beq_iff_eq] at h
    have hab : (a = '#' ∧ b = '#') ∨ (a = '*' ∧ b = '*') := by
      rcases h with ⟨ha, hb, -⟩ | ⟨ha, hb, -⟩
      · exact Or.inl ⟨ha.symm, hb.symm⟩
      · exact Or.inr ⟨ha.symm, hb.symm⟩
    rcases hab with ⟨rfl, rfl⟩ | ⟨rfl, rfl⟩
    · constructor
      · rw [isNumberedItem]
        rw [show isDigitChar '#' = false from rfl]
        rfl
      · rw [isDashItem]
        rfl
    · constructor
      · rw [isNumberedItem]
        rw [show isDigitChar '*' = false from rfl]
        rfl
      · rw [isDashItem]
        rw [show isWS '*' = false from rfl]
        simp

theorem num_not_dash {s : List Char} (h : isNumberedItem s = true) :
    isDashItem s = false := by
  match s with
  | [] => exact absurd h (by decide)
  | [c] => rfl
  | c :: c2 :: t =>
    rw [isNumberedItem, Bool.and_eq_true] at h
    rw [isDashItem]
    by_cases h1 : c = '-'
    · subst h1
      exact absurd h.1 (by decide)
    · by_cases h2 : c = '*'
      · subst h2
        exact absurd h.1 (by decide)
      · simp [h1, h2]

theorem containsAny_six_of_goal {s : List Char}
    (h : containsAny goalPhrases s = true) : containsAny sixPhrases s = true := by
  unfold sixPhrases
  rw [containsAny_append, h]
  rfl

theorem containsAny_six_of_side {s : List Char}
    (h : containsAny sidePhrases s = true) : containsAny sixPhrases s = true := by
  unfold sixPhrases
  rw [containsAny_append, h]
  simp

theorem containsAny_six_false {s : List Char}
    (hg : containsAny goalPhrases s = false)
    (hs : containsAny sidePhrases s = false) :
    containsAny sixPhrases s = false := by
  unfold sixPhrases
  rw [containsAny_append, hg, hs]
  rfl

theorem foldl_marker (gpre spre : List Char) :
    ∀ (lines : List (List Char)) (st : ParseSt),
      (lines.foldl (processLine false gpre spre) st).gs =
        st.gs ++ declsFrom gpre (st.gc + 1) (markerCleaneds isNumberedItem lines) ∧
      (lines.foldl (processLine false gpre spre) st).ss =
        st.ss ++ declsFrom spre (st.sc + 1) (markerCleaneds isDashItem lines) ∧
      (lines.foldl (processLine false gpre spre) st).gc =
        st.gc + (markerCleaneds isNumberedItem lines).length ∧
      (lines.foldl (processLine false gpre spre) st).sc =
        st.sc + (markerCleaneds isDashItem lines).length := by
  intro lines
  induction lines with
  | nil =>
    intro st
    simp [markerCleaneds, declsFrom]
  | cons l ls ih =>
    intro st
    rw [List.foldl_cons]
    by_cases h0 : strip l = []
    · have hp : processLine false gpre spre st l = st := by
        rw [processLine.eq_def]
        simp [h0]
      have hm1 : markerCleaneds isNumberedItem (l :: ls) =
          markerCleaneds isNumberedItem ls := by
        rw [markerCleaneds]
        simp [h0, isNumberedItem]
      have hm2 : markerCleaneds isDashItem (l :: ls) =
          markerCleaneds isDashItem ls := by
        rw [markerCleaneds]
        simp [h0, isDashItem]
      rw [hp, hm1, hm2]
      exact ih st
    · cases hgp : containsAny goalPhrases (pyLower (strip l)) with
      | true =>
        have hsix := containsAny_six_of_goal hgp
        have hp : processLine false gpre spre st l =
            { st with sect := some Sect.goals } := by
          rw [processLine.eq_def]
          simp [h0, hgp]
        have hm1 : markerCleaneds isNumberedItem (l :: ls) =
            markerCleaneds isNumberedItem ls := by
          rw [markerCleaneds]
          simp [hsix]
        have hm2 : markerCleaneds isDashItem (l :: ls) =
            markerCleaneds isDashItem ls := by
          rw [markerCleaneds]
          simp [hsix]
        rw [hp, hm1, hm2]
        exact ih { st with sect := some Sect.goals }
      | false =>
        cases hsp : containsAny sidePhrases (pyLower (strip l)) with
        | true =>
          have hsix := containsAny_six_of_side hsp
          have hp : processLine false gpre spre st l =
              { st with sect := some Sect.sideGoals } := by
            rw [processLine.eq_def]
            simp [h0, hgp, hsp]
          have hm1 : markerCleaneds isNumberedItem (l :: ls) =
              markerCleaneds isNumberedItem ls := by
            rw [markerCleaneds]
            simp [hsix]
          have hm2 : markerCleaneds isDashItem (l :: ls) =
              markerCleaneds isDashItem ls := by
            rw [markerCleaneds]
            simp [hsix]
          rw [hp, hm1, hm2]
          exact ih { st with sect := some Sect.sideGoals }
        | false =>
          have hsix := containsAny_six_false hgp hsp
          cases hhd : isSectionHeaderLine (strip l) with
          | true =>
            obtain ⟨hni, hnd⟩ := headerline_not_item hhd
            have hp : processLine false gpre spre st l = { st with sect := none } := by
              rw [processLine.eq_def]
              simp [h0, hgp, hsp, hhd]
            have hm1 : markerCleaneds isNumberedItem (l :: ls) =
                markerCleaneds isNumberedItem ls := by
              rw [markerCleaneds]
              simp [hni]
            have hm2 : markerCleaneds isDashItem (l :: ls) =
                markerCleaneds isDashItem ls := by
              rw [markerCleaneds]
              simp [hnd]
            rw [hp, hm1, hm2]
            exact ih { st with sect := none }
          | false =>
            cases hni : isNumberedItem (strip l) with
            | true =>
              have hnd := num_not_dash hni
              by_cases hcl : stripMarker (strip l) = []
              · have hp : processLine false gpre spre st l = st := by
                  rw [processLine.eq_def]
                  simp [h0, hgp, hsp, hhd, hni, hnd, hcl]
                have hm1 : markerCleaneds isNumberedItem (l :: ls) =
                    markerCleaneds isNumberedItem ls := by
                  rw [markerCleaneds]
                  simp [hcl]
                have hm2 : markerCleaneds isDashItem (l :: ls) =
                    markerCleaneds isDashItem ls := by
                  rw [markerCleaneds]
                  simp [hnd]
                rw [hp, hm1, hm2]
                exact ih st
              · have hp : processLine false gpre spre st l =
                    { st with
                      gc := st.gc + 1
                      gs := st.gs ++ [⟨st.gc + 1,
                        (parse_client_from_text (stripMarker (strip l))).2,
                        (parse_client_from_text (stripMarker (strip l))).1,
                        gpre ++ natRepr (st.gc + 1)⟩] } := by
                  rw [processLine.eq_def]
                  simp [h0, hgp, hsp, hhd, hni, hnd, hcl]
                have hm1 : markerCleaneds isNumberedItem (l :: ls) =
                    stripMarker (strip l) :: markerCleaneds isNumberedItem ls := by
                  rw [markerCleaneds]
                  simp [hsix, hni, hcl]
                have hm2 : markerCleaneds isDashItem (l :: ls) =
                    markerCleaneds isDashItem ls := by
                  rw [markerCleaneds]
                  simp [hnd]
                rw [hp, hm1, hm2]
                obtain ⟨i1, i2, i3, i4⟩ := ih
                  { st with
                    gc := st.gc + 1
                    gs := st.gs ++ [⟨st.gc + 1,
                      (parse_client_from_text (stripMarker (strip l))).2,
                      (parse_client_from_text (stripMarker (strip l))).1,
                      gpre ++ natRepr (st.gc + 1)⟩] }
                dsimp only at i1 i2 i3 i4
                refine ⟨?_, i2, ?_, i4⟩
                · rw [i1, List.append_assoc, declsFrom]
                  rfl
                · rw [i3]
                  simp only [List.length_cons]
                  omega
            | false =>
              cases hid : isDashItem (strip l) with
              | true =>
                by_cases hcl : stripMarker (strip l) = []
                · have hp : processLine false gpre spre st l = st := by
                    rw [processLine.eq_def]
                    simp [h0, hgp, hsp, hhd, hni, hid, hcl]
                  have hm1 : markerCleaneds isNumberedItem (l :: ls) =
                      markerCleaneds isNumberedItem ls := by
                    rw [markerCleaneds]
                    simp [hni]
                  have hm2 : markerCleaneds isDashItem (l :: ls) =
                      markerCleaneds isDashItem ls := by
                    rw [markerCleaneds]
                    simp [hcl]
                  rw [hp, hm1, hm2]
                  exact ih st
                · have hp : processLine false gpre spre st l =
                      { st with
                        sc := st.sc + 1
                        ss := st.ss ++ [⟨st.sc + 1,
                          (parse_client_from_text (stripMarker (strip l))).2,
                          (parse_client_from_text (stripMarker (strip l))).1,
                          spre ++ natRepr (st.sc + 1)⟩] } := by
                    rw [processLine.eq_def]
                    simp [h0, hgp, hsp, hhd, hni, hid, hcl]
                  have hm1 : markerCleaneds isNumberedItem (l :: ls) =
                      markerCleaneds isNumberedItem ls := by
                    rw [markerCleaneds]
                    simp [hni]
                  have hm2 : markerCleaneds isDashItem (l :: ls) =
                      stripMarker (strip l) :: markerCleaneds isDashItem ls := by
                    rw [markerCleaneds]
                    simp [hsix, hid, hcl]
                  rw [hp, hm1, hm2]
                  obtain ⟨i1, i2, i3, i4⟩ := ih
                    { st with
                      sc := st.sc + 1
                      ss := st.ss ++ [⟨st.sc + 1,
                        (parse_client_from_text (stripMarker (strip l))).2,
                        (parse_client_from_text (stripMarker (strip l))).1,
                        spre ++ natRepr (st.sc + 1)⟩] }
                  dsimp only at i1 i2 i3 i4
                  refine ⟨i1, ?_, i3, ?_⟩
                  · rw [i2, List.append_assoc, declsFrom]
                    rfl
                  · rw [i4]
                    simp only [List.length_cons]
                    omega
              | false =>
                have hp : processLine false gpre spre st l = st := by
                  rw [processLine.eq_def]
                  simp [h0, hgp, hsp, hhd, hni, hid]
                have hm1 : markerCleaneds isNumberedItem (l :: ls) =
                    markerCleaneds isNumberedItem ls := by
                  rw [markerCleaneds]
                  simp [hni]
                have hm2 : markerCleaneds isDashItem (l :: ls) =
                    markerCleaneds isDashItem ls := by
                  rw [markerCleaneds]
                  simp [hid]
                rw [hp, hm1, hm2]
                exact ih st

theorem marker_mode_closed_form (desc gpre spre : List Char)
    (h : hasExplicitHeaders (splitOnNl (strip desc)) = false) :
    parse_sprint_description desc gpre spre =
      (declsFrom gpre 1 (markerCleaneds isNumberedItem (splitOnNl (strip desc))),
       declsFrom spre 1 (markerCleaneds isDashItem (splitOnNl (strip desc)))) := by
  by_cases hd : desc = []
  · subst hd
    rfl
  · rw [parse_sprint_description, if_neg hd]
    dsimp only
    rw [h]
    obtain ⟨m1, m2, m3, m4⟩ :=
      foldl_marker gpre spre (splitOnNl (strip desc)) ⟨none, 0, 0, [], []⟩
    dsimp only at m1 m2
    rw [List.nil_append] at m1 m2
    rw [Prod.mk.injEq]
    exact ⟨m1, m2⟩

/-- C10: when the first pass finds no header phrase (marker mode), a line
containing any of the six recognized header substrings is still consumed as a
section header: the closed form below filters such lines out of both item
lists, so they yield no declaration and leave both id counters unchanged,
even when they begin with a numbered or dash/asterisk marker. -/
theorem c10_marker_mode_header_consumption (desc gpre spre : List Char)
    (h : hasExplicitHeaders (splitOnNl (strip desc)) = false) :
    parse_sprint_description desc gpre spre =
      (declsFrom gpre 1 (markerCleaneds isNumberedItem (splitOnNl (strip desc))),
       declsFrom spre 1 (markerCleaneds isDashItem (splitOnNl (strip desc)))) :=
  marker_mode_closed_form desc gpre spre h

/-- Witness for C10: a numbered line containing "poboczn" is consumed as a
header in marker mode and produces no goal, while the remaining numbered
line is numbered from 1. -/
theorem c10_marker_mode_header_consumption_witness :
    hasExplicitHeaders (splitOnNl (strip "1. zadania poboczne\n2. y".toList)) = false ∧
    parse_sprint_description "1. zadania poboczne\n2. y".toList
        "cel".toList "extra".toList =
      (declsFrom "cel".toList 1
        (markerCleaneds isNumberedItem
          (splitOnNl (strip "1. zadania poboczne\n2. y".toList))),
       declsFrom "extra".toList 1
        (markerCleaneds isDashItem
          (splitOnNl (strip "1. zadania poboczne\n2. y".toList)))) :=
  ⟨by decide,
   c10_marker_mode_header_consumption "1. zadania poboczne\n2. y".toList
     "cel".toList "extra".toList (by decide)⟩

theorem markerCleaneds_eq_plainItems (p : List Char → Bool) :
    ∀ lines : List (List Char),
      (∀ l ∈ lines, containsAny sixPhrases (pyLower (strip l)) = false) →
      markerCleaneds p lines = plainItems p lines := by
  intro lines
  induction lines with
  | nil =>
    intro _
    simp [markerCleaneds, plainItems]
  | cons l ls ih =>
    intro h
    have h0 := h l (by simp)
    have ihh := ih (fun x hx => h x (by simp [hx]))
    rw [markerCleaneds]
    simp only [plainItems, List.map_cons, List.filter_cons] at ihh ⊢
    cases hps : p (strip l) with
    | true =>
      by_cases hcl : stripMarker (strip l) = []
      · simp [h0, hps, hcl, ihh]
      · simp [h0, hps, hcl, ihh]
    | false =>
      simp [h0, hps, ihh]

/-- C1 counterexample: in marker mode with no header phrase anywhere, the
line "1." begins with digits followed by a dot, yet the parse yields a single
goal (from "2. x"), not two - the claim that every such line lands in
`goals` with sequential ids fails for marker lines that are empty after
marker removal. -/
theorem c1_counterexample :
    (∀ l ∈ splitOnNl (strip "1.\n2. x".toList),
       containsAny sixPhrases (pyLower (strip l)) = false) ∧
    ((splitOnNl (strip "1.\n2. x".toList)).filter
       (fun l => isNumberedItem (strip l))).length = 2 ∧
    (parse_sprint_description "1.\n2. x".toList "cel".toList "extra".toList).1.length
      = 1 :=
  ⟨by decide, by decide, by decide⟩

/-- C1 (amended): for descriptions in which no line contains one of the six
recognized section-header substrings, every stripped line that matches the
numbered-marker test and is nonempty after the marker is removed becomes a
goal, every stripped line matching the dash/asterisk test with nonempty
remainder becomes a side goal, in original line order, with ids sequential
from 1 independently per section; no other line produces a declaration or
affects the counters. -/
theorem c1_marker_mode (desc gpre spre : List Char)
    (h : ∀ l ∈ splitOnNl (strip desc),
       containsAny sixPhrases (pyLower (strip l)) = false) :
    parse_sprint_description desc gpre spre =
      (declsFrom gpre 1 (plainItems isNumberedItem (splitOnNl (strip desc))),
       declsFrom spre 1 (plainItems isDashItem (splitOnNl (strip desc)))) := by
  have hsub : ∀ k ∈ headerPhrases, k ∈ sixPhrases := by decide
  have hh : hasExplicitHeaders (splitOnNl (strip desc)) = false := by
    unfold hasExplicitHeaders
    rw [List.any_eq_false]
    intro l hl
    rw [strip_pyLower]
    rw [containsAny_false_of_sub hsub (h l hl)]
    exact Bool.false_ne_true
  rw [marker_mode_closed_form desc gpre spre hh]
  rw [markerCleaneds_eq_plainItems isNumberedItem (splitOnNl (strip desc)) h]
  rw [markerCleaneds_eq_plainItems isDashItem (splitOnNl (strip desc)) h]

/-- Witness for C1: a concrete description with numbered, dash and plain
lines and no header phrases. -/
theorem c1_marker_mode_witness :
    (∀ l ∈ splitOnNl (strip "1. a\n- b\nplain\n2. c".toList),
       containsAny sixPhrases (pyLower (strip l)) = false) ∧
    parse_sprint_description "1. a\n- b\nplain\n2. c".toList
        "cel".toList "extra".toList =
      (declsFrom "cel".toList 1
        (plainItems isNumberedItem (splitOnNl (strip "1. a\n- b\nplain\n2. c".toList))),
       declsFrom "extra".toList 1
        (plainItems isDashItem (splitOnNl (strip "1. a\n- b\nplain\n2. c".toList)))) :=
  ⟨by decide,
   c1_marker_mode "1. a\n- b\nplain\n2. c".toList "cel".toList "extra".toList
     (by decide)⟩

theorem foldl_header (gpre spre : List Char) :
    ∀ (lines : List (List Char)) (st : ParseSt),
      (lines.foldl (processLine true gpre spre) st).gs =
        st.gs ++ declsFrom gpre (st.gc + 1) (headerAssigned Sect.goals st.sect lines) ∧
      (lines.foldl (processLine true gpre spre) st).ss =
        st.ss ++ declsFrom spre (st.sc + 1) (headerAssigned Sect.sideGoals st.sect lines) ∧
      (lines.foldl (processLine true gpre spre) st).gc =
        st.gc + (headerAssigned Sect.goals st.sect lines).length ∧
      (lines.foldl (processLine true gpre spre) st).sc =
        st.sc + (headerAssigned Sect.sideGoals st.sect lines).length := by
  intro lines
  induction lines with
  | nil =>
    intro st
    simp [headerAssigned, declsFrom]
  | cons l ls ih =>
    intro st
    rw [List.foldl_cons]
    by_cases h0 : strip l = []
    · have hp : processLine true gpre spre st l = st := by
        rw [processLine.eq_def]
        simp [h0]
      have ha1 : headerAssigned Sect.goals st.sect (l :: ls) =
          headerAssigned Sect.goals st.sect ls := by
        rw [headerAssigned]
        simp [h0]
      have ha2 : headerAssigned Sect.sideGoals st.sect (l :: ls) =
          headerAssigned Sect.sideGoals st.sect ls := by
        rw [headerAssigned]
        simp [h0]
      rw [hp, ha1, ha2]
      exact ih st
    · cases hgp : containsAny goalPhrases (pyLower (strip l)) with
      | true =>
        have hp : processLine true gpre spre st l =
            { st with sect := some Sect.goals } := by
          rw [processLine.eq_def]
          simp [h0, hgp]
        have ha1 : headerAssigned Sect.goals st.sect (l :: ls) =
            headerAssigned Sect.goals (some Sect.goals) ls := by
          rw [headerAssigned]
          simp [h0, hgp]
        have ha2 : headerAssigned Sect.sideGoals st.sect (l :: ls) =
            headerAssigned Sect.sideGoals (some Sect.goals) ls := by
          rw [headerAssigned]
          simp [h0, hgp]
        rw [hp, ha1, ha2]
        exact ih { st with sect := some Sect.goals }
      | false =>
        cases hsp : containsAny sidePhrases (pyLower (strip l)) with
        | true =>
          have hp : processLine true gpre spre st l =
              { st with sect := some Sect.sideGoals } := by
            rw [processLine.eq_def]
            simp [h0, hgp, hsp]
          have ha1 : headerAssigned Sect.goals st.sect (l :: ls) =
              headerAssigned Sect.goals (some Sect.sideGoals) ls := by
            rw [headerAssigned]
            simp [h0, hgp, hsp]
          have ha2 : headerAssigned Sect.sideGoals st.sect (l :: ls) =
              headerAssigned Sect.sideGoals (some Sect.sideGoals) ls := by
            rw [headerAssigned]
            simp [h0, hgp, hsp]
          rw [hp, ha1, ha2]
          exact ih { st with sect := some Sect.sideGoals }
        | false =>
          cases hhd : isSectionHeaderLine (strip l) with
          | true =>
            have hp : processLine true gpre spre st l = { st with sect := none } := by
              rw [processLine.eq_def]
              simp [h0, hgp, hsp, hhd]
            have ha1 : headerAssigned Sect.goals st.sect (l :: ls) =
                headerAssigned Sect.goals none ls := by
              rw [headerAssigned]
              simp [h0, hgp, hsp, hhd]
            have ha2 : headerAssigned Sect.sideGoals st.sect (l :: ls) =
                headerAssigned Sect.sideGoals none ls := by
              rw [headerAssigned]
              simp [h0, hgp, hsp, hhd]
            rw [hp, ha1, ha2]
            exact ih { st with sect := none }
          | false =>
            cases hitem : (isNumberedItem (strip l) || isDashItem (strip l)) with
            | false =>
              rw [Bool.or_eq_false_iff] at hitem
              have hp : processLine true gpre spre st l = st := by
                rw [processLine.eq_def]
                simp [h0, hgp, hsp, hhd, hitem.1, hitem.2]
              have ha1 : headerAssigned Sect.goals st.sect (l :: ls) =
                  headerAssigned Sect.goals st.sect ls := by
                rw [headerAssigned]
                simp [h0, hgp, hsp, hhd, hitem.1, hitem.2]
              have ha2 : headerAssigned Sect.sideGoals st.sect (l :: ls) =
                  headerAssigned Sect.sideGoals st.sect ls := by
                rw [headerAssigned]
                simp [h0, hgp, hsp, hhd, hitem.1, hitem.2]
              rw [hp, ha1, ha2]
              exact ih st
            | true =>
              by_cases hcl : stripMarker (strip l) = []
              · have hp : processLine true gpre spre st l = st := by
                  rw [processLine.eq_def]
                  have hor := hitem
                  rw [Bool.or_eq_true] at hor
                  cases hsect : st.sect with
                  | none =>
                    rcases hor with hni | hdi
                    · simp [h0, hgp, hsp, hhd, hni, hsect]
                    · simp [h0, hgp, hsp, hhd, hdi, hsect]
                  | some sec =>
                    rcases hor with hni | hdi
                    · simp [h0, hgp, hsp, hhd, hni, hsect, hcl]
                    · simp [h0, hgp, hsp, hhd, hdi, hsect, hcl]
                have ha1 : headerAssigned Sect.goals st.sect (l :: ls) =
                    headerAssigned Sect.goals st.sect ls := by
                  rw [headerAssigned]
                  simp [h0, hgp, hsp, hhd, hcl]
                have ha2 : headerAssigned Sect.sideGoals st.sect (l :: ls) =
                    headerAssigned Sect.sideGoals st.sect ls := by
                  rw [headerAssigned]
                  simp [h0, hgp, hsp, hhd, hcl]
                rw [hp, ha1, ha2]
                exact ih st
              · cases hsect : st.sect with
                | none =>
                  have hp : processLine true gpre spre st l = st := by
                    rw [processLine.eq_def]
                    have hor := hitem
                    rw [Bool.or_eq_true] at hor
                    rcases hor with hni | hdi
                    · simp [h0, hgp, hsp, hhd, hni, hsect]
                    · simp [h0, hgp, hsp, hhd, hdi, hsect]
                  have ha1 : headerAssigned Sect.goals none (l :: ls) =
                      headerAssigned Sect.goals none ls := by
                    rw [headerAssigned]
                    simp [h0, hgp, hsp, hhd]
                  have ha2 : headerAssigned Sect.sideGoals none (l :: ls) =
                      headerAssigned Sect.sideGoals none ls := by
                    rw [headerAssigned]
                    simp [h0, hgp, hsp, hhd]
                  rw [hp, ha1, ha2]
                  have hih := ih st
                  rw [hsect] at hih
                  exact hih
                | some sec =>
                  cases sec with
                  | goals =>
                    have hp : processLine true gpre spre st l =
                        { st with
                          gc := st.gc + 1
                          gs := st.gs ++ [⟨st.gc + 1,
                            (parse_client_from_text (stripMarker (strip l))).2,
                            (parse_client_from_text (stripMarker (strip l))).1,
                            gpre ++ natRepr (st.gc + 1)⟩] } := by
                      rw [processLine.eq_def]
                      have hor := hitem
                      rw [Bool.or_eq_true] at hor
                      rcases hor with hni | hdi
                      · simp [h0, hgp, hsp, hhd, hni, hsect, hcl]
                      · simp [h0, hgp, hsp, hhd, hdi, hsect, hcl]
                    have ha1 : headerAssigned Sect.goals (some Sect.goals) (l :: ls) =
                        stripMarker (strip l) ::
                          headerAssigned Sect.goals (some Sect.goals) ls := by
                      rw [headerAssigned]
                      simp [h0, hgp, hsp, hhd, hitem, hcl]
                    have ha2 : headerAssigned Sect.sideGoals (some Sect.goals) (l :: ls) =
                        headerAssigned Sect.sideGoals (some Sect.goals) ls := by
                      rw [headerAssigned]
                      simp [h0, hgp, hsp, hhd]
                    rw [hp, ha1, ha2, hsect]
                    obtain ⟨i1, i2, i3, i4⟩ := ih
                      { st with
                        gc := st.gc + 1
                        gs := st.gs ++ [⟨st.gc + 1,
                          (parse_client_from_text (stripMarker (strip l))).2,
                          (parse_client_from_text (stripMarker (strip l))).1,
                          gpre ++ natRepr (st.gc + 1)⟩] }
                    dsimp only at i1 i2 i3 i4
                    rw [hsect] at i1 i2 i3 i4
                    refine ⟨?_, i2, ?_, i4⟩
                    · rw [i1, List.append_assoc, declsFrom]
                      rfl
                    · rw [i3]
                      simp only [List.length_cons]
                      omega
                  | sideGoals =>
                    have hp : processLine true gpre spre st l =
                        { st with
                          sc := st.sc + 1
                          ss := st.ss ++ [⟨st.sc + 1,
                            (parse_client_from_text (stripMarker (strip l))).2,
                            (parse_client_from_text (stripMarker (strip l))).1,
                            spre ++ natRepr (st.sc + 1)⟩] } := by
                      rw [processLine.eq_def]
                      have hor := hitem
                      rw [Bool.or_eq_true] at hor
                      rcases hor with hni | hdi
                      · simp [h0, hgp, hsp, hhd, hni, hsect, hcl]
                      · simp [h0, hgp, hsp, hhd, hdi, hsect, hcl]
                    have ha1 : headerAssigned Sect.goals (some Sect.sideGoals) (l :: ls) =
                        headerAssigned Sect.goals (some Sect.sideGoals) ls := by
                      rw [headerAssigned]
                      simp [h0, hgp, hsp, hhd]
                    have ha2 : headerAssigned Sect.sideGoals (some Sect.sideGoals) (l :: ls) =
                        stripMarker (strip l) ::
                          headerAssigned Sect.sideGoals (some Sect.sideGoals) ls := by
                      rw [headerAssigned]
                      simp [h0, hgp, hsp, hhd, hitem, hcl]
                    rw [hp, ha1, ha2, hsect]
                    obtain ⟨i1, i2, i3, i4⟩ := ih
                      { st with
                        sc := st.sc + 1
                        ss := st.ss ++ [⟨st.sc + 1,
                          (parse_client_from_text (stripMarker (strip l))).2,
                          (parse_client_from_text (stripMarker (strip l))).1,
                          spre ++ natRepr (st.sc + 1)⟩] }
                    dsimp only at i1 i2 i3 i4
                    rw [hsect] at i1 i2 i3 i4
                    refine ⟨i1, ?_, i3, ?_⟩
                    · rw [i2, List.append_assoc, declsFrom]
                      rfl
                    · rw [i4]
                      simp only [List.length_cons]
                      omega

/-- C7 counterexample: under a recognized goals header, the numbered item
line "1." is a list-item line, yet it is dropped because it is empty after
marker removal (cleaned text empty, counter unchanged), so not every item
line under the most recent header is assigned to its section: the parse
yields one goal, not two. -/
theorem c7_counterexample :
    hasExplicitHeaders (splitOnNl (strip "## Cele główne\n1.\n2. x".toList)) = true ∧
    ((splitOnNl (strip "## Cele główne\n1.\n2. x".toList)).filter
       (fun l => isNumberedItem (strip l) || isDashItem (strip l))).length = 2 ∧
    (parse_sprint_description "## Cele główne\n1.\n2. x".toList
       "cel".toList "extra".toList).1.length = 1 ∧
    (parse_sprint_description "## Cele główne\n1.\n2. x".toList
       "cel".toList "extra".toList).2.length = 0 :=
  ⟨by decide, by decide, by decide, by decide⟩

/-- C7 (amended): with a recognized header phrase present, every qualifying
list-item line whose content is nonempty after removing its marker is
assigned to the section whose recognized header most recently appeared
before it (`headerAssigned` carries only that state and ignores the item's
own marker type); items before the first recognized header or under an
unrecognized ##/** header (state `none`), and items empty after marker
removal, are dropped; and a line containing a section-header phrase is
consumed as a header, never becoming a list item. -/
theorem c7_header_mode (desc gpre spre : List Char)
    (h : hasExplicitHeaders (splitOnNl (strip desc)) = true) :
    parse_sprint_description desc gpre spre =
      (declsFrom gpre 1 (headerAssigned Sect.goals none (splitOnNl (strip desc))),
       declsFrom spre 1
         (headerAssigned Sect.sideGoals none (splitOnNl (strip desc)))) := by
  have hd : desc ≠ [] := by
    intro he
    subst he
    exact absurd h (by decide)
  rw [parse_sprint_description, if_neg hd]
  dsimp only
  rw [h]
  obtain ⟨m1, m2, m3, m4⟩ :=
    foldl_header gpre spre (splitOnNl (strip desc)) ⟨none, 0, 0, [], []⟩
  dsimp only at m1 m2
  rw [List.nil_append] at m1 m2
  rw [Prod.mk.injEq]
  exact ⟨m1, m2⟩

/-- Witness for C7: under headers, a dash item goes to goals and a numbered
item goes to side goals, each following its most recent header. -/
theorem c7_header_mode_witness :
    hasExplicitHeaders
      (splitOnNl (strip "## Cele główne\n- a\n## Cele poboczne\n1. b".toList)) = true ∧
    parse_sprint_description "## Cele główne\n- a\n## Cele poboczne\n1. b".toList
        "cel".toList "extra".toList =
      (declsFrom "cel".toList 1
        (headerAssigned Sect.goals none
          (splitOnNl (strip "## Cele główne\n- a\n## Cele poboczne\n1. b".toList))),
       declsFrom "extra".toList 1
        (headerAssigned Sect.sideGoals none
          (splitOnNl (strip "## Cele główne\n- a\n## Cele poboczne\n1. b".toList)))) :=
  ⟨by decide,
   c7_header_mode "## Cele główne\n- a\n## Cele poboczne\n1. b".toList
     "cel".toList "extra".toList (by decide)⟩

theorem mem_of_mem_dropWhile {a : Char} {p : Char → Bool} :
    ∀ {s : List Char}, a ∈ s.dropWhile p → a ∈ s := by
  intro s
  induction s with
  | nil => simp
  | cons c rest ih =>
    intro h
    by_cases hc : p c
    · rw [List.dropWhile_cons_of_pos hc] at h
      exact List.mem_cons_of_mem c (ih h)
    · rw [List.dropWhile_cons_of_neg hc] at h
      exact h

theorem mem_of_mem_ltrim {a : Char} {s : List Char} (h : a ∈ ltrim s) : a ∈ s :=
  mem_of_mem_dropWhile h

theorem mem_of_mem_rtrim {a : Char} {s : List Char} (h : a ∈ rtrim s) : a ∈ s := by
  unfold rtrim at h
  rw [List.mem_reverse] at h
  have := mem_of_mem_dropWhile h
  rwa [List.mem_reverse] at this

theorem mem_of_mem_strip {a : Char} {s : List Char} (h : a ∈ strip s) : a ∈ s :=
  mem_of_mem_ltrim (mem_of_mem_rtrim h)

theorem ltrim_append_cons_nonws {c : Char} (hc : isWS c = false)
    (u y : List Char) : ltrim (u ++ c :: y) = ltrim u ++ c :: y := by
  induction u with
  | nil =>
    rw [List.nil_append]
    unfold ltrim
    rw [List.dropWhile_cons_of_neg (by rw [hc]; exact Bool.false_ne_true)]
    rfl
  | cons a u' ih =>
    unfold ltrim at ih ⊢
    by_cases ha : isWS a
    · rw [List.cons_append, List.dropWhile_cons_of_pos ha,
        List.dropWhile_cons_of_pos ha]
      exact ih
    · rw [List.cons_append, List.dropWhile_cons_of_neg ha,
        List.dropWhile_cons_of_neg ha]
      rfl

theorem rtrim_append_cons_nonws {c : Char} (hc : isWS c = false)
    (y v : List Char) : rtrim (y ++ c :: v) = y ++ c :: rtrim v := by
  unfold rtrim
  rw [List.reverse_append, List.reverse_cons, List.append_assoc]
  rw [show ([c] ++ y.reverse : List Char) = c :: y.reverse from rfl]
  have hlt := ltrim_append_cons_nonws hc v.reverse y.reverse
  unfold ltrim at hlt
  rw [hlt]
  rw [List.reverse_append, List.reverse_cons]
  simp

theorem all_ws_ltrim_nil {l : List Char} (h : l.all isWS = true) : ltrim l = [] := by
  unfold ltrim
  induction l with
  | nil => rfl
  | cons c rest ih =>
    rw [List.all_cons, Bool.and_eq_true] at h
    rw [List.dropWhile_cons_of_pos h.1]
    exact ih h.2

theorem all_ws_rtrim_nil {l : List Char} (h : l.all isWS = true) : rtrim l = [] := by
  unfold rtrim
  have hrev : l.reverse.all isWS = true := by
    rw [List.all_eq_true] at h ⊢
    intro a ha
    exact h a (List.mem_reverse.mp ha)
  rw [show l.reverse.dropWhile isWS = ltrim l.reverse from rfl,
    all_ws_ltrim_nil hrev]
  rfl

theorem rtrim_cons_of_not_all_ws {c : Char} {l : List Char}
    (h : (c :: l).all isWS = false) : rtrim (c :: l) = c :: rtrim l := by
  by_cases hl : l.all isWS = true
  · have hc : isWS c = false := by
      rw [List.all_cons] at h
      cases hcc : isWS c
      · rfl
      · rw [hcc, Bool.true_and, hl] at h
        exact absurd h (by simp)
    rw [show (c :: l : List Char) = [] ++ c :: l from rfl,
      rtrim_append_cons_nonws hc [] l]
    rfl
  · unfold rtrim
    rw [List.reverse_cons, List.dropWhile_append]
    cases hmt : l.reverse.dropWhile isWS with
    | nil =>
      exfalso
      apply hl
      rw [List.dropWhile_eq_nil_iff] at hmt
      rw [List.all_eq_true]
      intro a ha
      exact hmt a (List.mem_reverse.mpr ha)
    | cons x xs =>
      simp
theorem ltrim_rtrim_comm : ∀ v : List Char, ltrim (rtrim v) = rtrim (ltrim v) := by
  intro v
  induction v with
  | nil => rfl
  | cons c v' ih =>
    by_cases hall : (c :: v').all isWS = true
    · rw [all_ws_rtrim_nil hall, all_ws_ltrim_nil hall]
      rfl
    · have hfalse : (c :: v').all isWS = false := by
        cases hx : (c :: v').all isWS
        · rfl
        · exact absurd hx hall
      rw [rtrim_cons_of_not_all_ws hfalse]
      by_cases hc : isWS c = true
      · have hv : v'.all isWS = false := by
          rw [List.all_cons, hc, Bool.true_and] at hfalse
          exact hfalse
        have e1 : ltrim (c :: rtrim v') = ltrim (rtrim v') := by
          unfold ltrim
          rw [List.dropWhile_cons_of_pos hc]
        have e2 : ltrim (c :: v') = ltrim v' := by
          unfold ltrim
          rw [List.dropWhile_cons_of_pos hc]
        rw [e1, e2, ih]
      · have hcf : isWS c = false := by
          cases hx : isWS c
          · rfl
          · exact absurd hx hc
        have e1 : ltrim (c :: rtrim v') = c :: rtrim v' := by
          unfold ltrim
          rw [List.dropWhile_cons_of_neg hc]
        have e2 : ltrim (c :: v') = c :: v' := by
          unfold ltrim
          rw [List.dropWhile_cons_of_neg hc]
        rw [e1, e2, rtrim_cons_of_not_all_ws hfalse]

theorem bracketAt_cons_ne {c : Char} (x : List Char) (h : c ≠ '[') :
    bracketAt (c :: x) = none := by
  rw [bracketAt.eq_def]
  split
  next t heq =>
    rw [List.cons.injEq] at heq
    exact absurd heq.1 h
  next => rfl

theorem bracketAt_exact {g : List Char} (v : List Char) (hg1 : g ≠ [])
    (hg2 : ']' ∉ g) :
    bracketAt ('[' :: (g ++ ']' :: v)) = some (g, v) := by
  have hall : g.all (fun c => c ≠ ']') = true := by
    rw [List.all_eq_true]
    intro a ha
    simp only [ne_eq, decide_eq_true_eq]
    intro hae
    subst hae
    exact hg2 ha
  have hdrop : (g ++ ']' :: v).dropWhile (fun c => c ≠ ']') = ']' :: v := by
    rw [List.dropWhile_append]
    have hgd : g.dropWhile (fun c => c ≠ ']') = [] := by
      rw [List.dropWhile_eq_nil_iff]
      intro a ha
      rw [List.all_eq_true] at hall
      exact hall a ha
    rw [hgd]
    simp only [List.isEmpty_nil, if_true]
    rw [List.dropWhile_cons_of_neg (by simp)]
  have htake : (g ++ ']' :: v).takeWhile (fun c => c ≠ ']') = g := by
    rw [List.takeWhile_append_of_pos (by simpa using hall)]
    rw [List.takeWhile_cons_of_neg (by simp)]
    rw [List.append_nil]
  rw [bracketAt.eq_def]
  simp only [hdrop, htake]
  cases hgc : g with
  | nil => exact absurd hgc hg1
  | cons a as => rfl

theorem findFirstBracket_append {u : List Char} (z : List Char)
    (hu : '[' ∉ u) : findFirstBracket (u ++ z) = findFirstBracket z := by
  induction u with
  | nil => rfl
  | cons c u' ih =>
    have hc : c ≠ '[' := by
      intro he
      subst he
      exact hu (by simp)
    rw [List.cons_append, findFirstBracket, bracketAt_cons_ne _ hc]
    exact ih (fun hm => hu (by simp [hm]))

theorem findFirstBracket_no_bracket {s : List Char} (h : '[' ∉ s) :
    findFirstBracket s = none := by
  have := findFirstBracket_append [] h
  rw [List.append_nil] at this
  rw [this]
  rfl

theorem subBrackets_no_bracket : ∀ {s : List Char}, '[' ∉ s → subBrackets s = s := by
  intro s
  induction s with
  | nil => intro _; rfl
  | cons c rest ih =>
    intro h
    rw [subBrackets_cons]
    have hb : bracketAt ((c :: rest).dropWhile isWS) = none := by
      cases hd : (c :: rest).dropWhile isWS with
      | nil => rfl
      | cons x xs =>
        refine bracketAt_cons_ne xs ?_
        intro he
        subst he
        have : '[' ∈ (c :: rest).dropWhile isWS := by
          rw [hd]
          exact List.mem_cons_self _ _
        exact h (mem_of_mem_dropWhile this)
    rw [hb]
    rw [ih (fun hm => h (by simp [hm]))]

theorem subBrackets_split {g : List Char} (hg1 : g ≠ []) (hg2 : ']' ∉ g) :
    ∀ (A : List Char) (B : List Char), '[' ∉ A →
      subBrackets (A ++ '[' :: (g ++ ']' :: B)) =
        rtrim A ++ ' ' :: subBrackets (B.dropWhile isWS) := by
  intro A
  induction A with
  | nil =>
    intro B _
    rw [List.nil_append, subBrackets_cons]
    have hd : ((('[' :: (g ++ ']' :: B)) : List Char)).dropWhile isWS =
        '[' :: (g ++ ']' :: B) := by
      rw [List.dropWhile_cons_of_neg (by decide)]
    rw [hd, bracketAt_exact B hg1 hg2]
    rfl
  | cons c A' ih =>
    intro B hA
    have hc : c ≠ '[' := by
      intro he
      subst he
      exact hA (List.mem_cons_self _ _)
    have hA' : '[' ∉ A' := fun hm => hA (List.mem_cons_of_mem c hm)
    by_cases hall : (c :: A').all isWS = true
    · have hnil : (c :: A').dropWhile isWS = [] := by
        rw [List.dropWhile_eq_nil_iff]
        intro a ha
        rw [List.all_eq_true] at hall
        exact hall a ha
      rw [show ((c :: A') ++ '[' :: (g ++ ']' :: B) : List Char) =
        c :: (A' ++ '[' :: (g ++ ']' :: B)) from rfl]
      rw [subBrackets_cons]
      have hd : ((c :: (A' ++ '[' :: (g ++ ']' :: B))) : List Char).dropWhile isWS =
          '[' :: (g ++ ']' :: B) := by
        rw [show (c :: (A' ++ '[' :: (g ++ ']' :: B)) : List Char) =
          (c :: A') ++ '[' :: (g ++ ']' :: B) from rfl]
        rw [List.dropWhile_append, hnil]
        simp only [List.isEmpty_nil, if_true]
        rw [List.dropWhile_cons_of_neg (by decide)]
      rw [hd, bracketAt_exact B hg1 hg2]
      rw [all_ws_rtrim_nil hall]
      rfl
    · have hfalse : (c :: A').all isWS = false := by
        cases hx : (c :: A').all isWS
        · rfl
        · exact absurd hx hall
      rw [show ((c :: A') ++ '[' :: (g ++ ']' :: B) : List Char) =
        c :: (A' ++ '[' :: (g ++ ']' :: B)) from rfl]
      rw [subBrackets_cons]
      have hb : bracketAt
          (((c :: (A' ++ '[' :: (g ++ ']' :: B))) : List Char).dropWhile isWS) =
          none := by
        rw [show (c :: (A' ++ '[' :: (g ++ ']' :: B)) : List Char) =
          (c :: A') ++ '[' :: (g ++ ']' :: B) from rfl]
        rw [List.dropWhile_append]
        cases hmt : (c :: A').dropWhile isWS with
        | nil =>
          exfalso
          apply hall
          rw [List.dropWhile_eq_nil_iff] at hmt
          rw [List.all_eq_true]
          intro a ha
          exact hmt a ha
        | cons x xs =>
          simp only [List.isEmpty_cons, if_false, Bool.false_eq_true]
          refine bracketAt_cons_ne _ ?_
          intro he
          subst he
          have hmem : '[' ∈ (c :: A').dropWhile isWS := by
            rw [hmt]
            exact List.mem_cons_self _ _
          exact hA (mem_of_mem_dropWhile hmem)
      rw [hb]
      rw [ih B hA']
      rw [rtrim_cons_of_not_all_ws hfalse]
      rfl

theorem rtrim_append_of_nonws_mem {B : List Char}
    (hB : ∃ c ∈ B, isWS c = false) (A : List Char) :
    rtrim (A ++ B) = A ++ rtrim B := by
  unfold rtrim
  rw [List.reverse_append, List.dropWhile_append]
  cases hmt : B.reverse.dropWhile isWS with
  | nil =>
    exfalso
    obtain ⟨c, hc, hcw⟩ := hB
    rw [List.dropWhile_eq_nil_iff] at hmt
    have := hmt c (List.mem_reverse.mpr hc)
    rw [hcw] at this
    exact absurd this (by simp)
  | cons x xs =>
    simp

theorem bracket_group_assoc (u g X : List Char) :
    ((u ++ '[' :: (g ++ [']'])) ++ X : List Char) =
      u ++ '[' :: (g ++ ']' :: X) := by
  rw [List.append_assoc, List.cons_append, List.append_assoc]
  rfl

theorem mapLastSnd_mem (f : List Char → List Char) :
    ∀ (segs : List (List Char × List Char)) (p : List Char × List Char),
      p ∈ mapLastSnd f segs →
      ∃ q ∈ segs, p.1 = q.1 ∧ (p.2 = q.2 ∨ p.2 = f q.2) := by
  intro segs
  induction segs with
  | nil =>
    intro p hp
    exact absurd hp (List.not_mem_nil p)
  | cons a rest ih =>
    cases rest with
    | nil =>
      obtain ⟨g0, v0⟩ := a
      intro p hp
      rw [show mapLastSnd f [(g0, v0)] = [(g0, f v0)] from rfl] at hp
      rw [List.mem_singleton] at hp
      subst hp
      exact ⟨(g0, v0), List.mem_singleton.mpr rfl, rfl, Or.inr rfl⟩
    | cons b rest2 =>
      intro p hp
      rw [show mapLastSnd f (a :: b :: rest2) = a :: mapLastSnd f (b :: rest2)
        from rfl] at hp
      rcases List.mem_cons.mp hp with he | hp2
      · rw [he]
        exact ⟨a, List.mem_cons_self _ _, rfl, Or.inl rfl⟩
      · obtain ⟨q, hq, h1, h2⟩ := ih p hp2
        exact ⟨q, List.mem_cons_of_mem a hq, h1, h2⟩

theorem ltrim_assemble (u g v : List Char)
    (rest : List (List Char × List Char)) :
    ltrim (assemble u ((g, v) :: rest)) = assemble (ltrim u) ((g, v) :: rest) := by
  show ltrim (u ++ '[' :: (g ++ ']' :: assemble v rest)) =
    ltrim u ++ '[' :: (g ++ ']' :: assemble v rest)
  exact ltrim_append_cons_nonws (by decide) u (g ++ ']' :: assemble v rest)

theorem rtrim_assemble :
    ∀ (rest : List (List Char × List Char)) (u g v : List Char),
      rtrim (assemble u ((g, v) :: rest)) =
        assemble u (mapLastSnd rtrim ((g, v) :: rest)) := by
  intro rest
  induction rest with
  | nil =>
    intro u g v
    show rtrim (u ++ '[' :: (g ++ ']' :: v)) = u ++ '[' :: (g ++ ']' :: rtrim v)
    have e : (u ++ '[' :: (g ++ ']' :: v) : List Char) =
        (u ++ '[' :: g) ++ ']' :: v := by
      rw [List.append_assoc]
      rfl
    rw [e, rtrim_append_cons_nonws (by decide) (u ++ '[' :: g) v,
      List.append_assoc]
    rfl
  | cons q rest2 ih =>
    intro u g v
    obtain ⟨g2, v2⟩ := q
    show rtrim (u ++ '[' :: (g ++ ']' :: assemble v ((g2, v2) :: rest2))) =
      u ++ '[' :: (g ++ ']' :: assemble v (mapLastSnd rtrim ((g2, v2) :: rest2)))
    have hmem : ∃ c ∈ assemble v ((g2, v2) :: rest2), isWS c = false := by
      refine ⟨'[', ?_, by decide⟩
      show '[' ∈ v ++ '[' :: (g2 ++ ']' :: assemble v2 rest2)
      exact List.mem_append_right v (List.mem_cons_self _ _)
    rw [← bracket_group_assoc u g (assemble v ((g2, v2) :: rest2))]
    rw [rtrim_append_of_nonws_mem hmem (u ++ '[' :: (g ++ [']']))]
    rw [ih v g2 v2]
    rw [bracket_group_assoc]

theorem subBrackets_assemble :
    ∀ (segs : List (List Char × List Char)) (u : List Char), '[' ∉ u →
      (∀ p ∈ segs, p.1 ≠ [] ∧ ']' ∉ p.1 ∧ '[' ∉ p.2) →
      subBrackets (assemble u segs) = subSpec u segs := by
  intro segs
  induction segs with
  | nil =>
    intro u hu _
    show subBrackets u = u
    exact subBrackets_no_bracket hu
  | cons p rest ih =>
    intro u hu hcond
    obtain ⟨g, v⟩ := p
    obtain ⟨hg1, hg2, hv⟩ := hcond (g, v) (List.mem_cons_self _ _)
    show subBrackets (u ++ '[' :: (g ++ ']' :: assemble v rest)) =
      rtrim u ++ ' ' :: subSpec (ltrim v) rest
    rw [subBrackets_split hg1 hg2 u (assemble v rest) hu]
    have hinner : subBrackets ((assemble v rest).dropWhile isWS) =
        subSpec (ltrim v) rest := by
      cases rest with
      | nil =>
        show subBrackets (ltrim v) = ltrim v
        exact subBrackets_no_bracket (fun hm => hv (mem_of_mem_ltrim hm))
      | cons q qs =>
        obtain ⟨g2, v2⟩ := q
        have hd : (assemble v ((g2, v2) :: qs)).dropWhile isWS =
            assemble (ltrim v) ((g2, v2) :: qs) := by
          rw [show (assemble v ((g2, v2) :: qs)).dropWhile isWS =
            ltrim (assemble v ((g2, v2) :: qs)) from rfl]
          exact ltrim_assemble v g2 v2 qs
        rw [hd]
        refine ih (ltrim v) (fun hm => hv (mem_of_mem_ltrim hm)) ?_
        intro p hp
        exact hcond p (List.mem_cons_of_mem _ hp)
    rw [hinner]

/-- C3 counterexample: on a line with two bracketed substrings and padded
client contents, the code strips the client and removes every bracketed
substring, not only the first one: the claim's predicted client " X " and
title "a b [Y] c" are both wrong. -/
theorem c3_counterexample :
    parse_client_from_text "a [ X ] b [Y] c".toList =
      (some "X".toList, "a b c".toList) ∧
    (parse_client_from_text "a [ X ] b [Y] c".toList).1 ≠ some " X ".toList ∧
    (parse_client_from_text "a [ X ] b [Y] c".toList).2 ≠ "a b [Y] c".toList :=
  ⟨by decide, by decide, by decide⟩

/-- C3 (amended): for every qualifying line, the client is the contents of
the first bracketed substring with surrounding whitespace stripped (null when
the line has no bracket, in which case the title is the trimmed remainder);
the title is the text with every bracketed substring, together with adjacent
whitespace, replaced by a single space, then trimmed.  Extraction is
position-independent: for any bracket-free `u` and `v`, the input
`u ++ [g] ++ v` yields client `strip g` and title
`strip (strip u ++ ' ' :: strip v)`; in general, for any number of bracketed
groups, a line decomposed as `assemble u segs` (a bracket-free prefix `u`
followed by groups `gᵢ` each with its bracket-free trailing segment `vᵢ`)
yields client `strip g₁` and title obtained by dropping every group and
joining the trimmed segments with single spaces (`subSpec`), then trimming;
the three spec examples hold. -/
theorem c3_client_extraction :
    (∀ u g v : List Char, '[' ∉ u → g ≠ [] → ']' ∉ g → '[' ∉ v →
       parse_client_from_text (u ++ '[' :: (g ++ ']' :: v)) =
         (some (strip g), strip (strip u ++ ' ' :: strip v))) ∧
    (∀ (u g v : List Char) (rest : List (List Char × List Char)), '[' ∉ u →
       (∀ p ∈ ((g, v) :: rest : List (List Char × List Char)),
          p.1 ≠ [] ∧ ']' ∉ p.1 ∧ '[' ∉ p.2) →
       parse_client_from_text (assemble u ((g, v) :: rest)) =
         (some (strip g),
          strip (subSpec (ltrim u) (mapLastSnd rtrim ((g, v) :: rest))))) ∧
    (∀ t : List Char, '[' ∉ t → parse_client_from_text t = (none, strip t)) ∧
    parse_client_from_text "[A] text".toList = (some "A".toList, "text".toList) ∧
    parse_client_from_text "text [A]".toList = (some "A".toList, "text".toList) ∧
    parse_client_from_text "te [A] xt".toList =
      (some "A".toList, "te xt".toList) := by
  refine ⟨?_, ?_, ?_, by decide, by decide, by decide⟩
  case refine_2 =>
    intro u g v rest hu hcond
    obtain ⟨hg1, hg2, hv⟩ := hcond (g, v) (List.mem_cons_self _ _)
    have hhead : ∃ v2 rest2,
        mapLastSnd rtrim ((g, v) :: rest) = (g, v2) :: rest2 ∧ '[' ∉ v2 ∧
        (∀ p ∈ rest2, p.1 ≠ [] ∧ ']' ∉ p.1 ∧ '[' ∉ p.2) := by
      cases rest with
      | nil =>
        refine ⟨rtrim v, [], rfl, fun hm => hv (mem_of_mem_rtrim hm), ?_⟩
        intro p hp
        exact absurd hp (List.not_mem_nil p)
      | cons q qs =>
        refine ⟨v, mapLastSnd rtrim (q :: qs), rfl, hv, ?_⟩
        intro p hp
        obtain ⟨q0, hq0, h1, h2⟩ := mapLastSnd_mem rtrim (q :: qs) p hp
        obtain ⟨hq1, hq2, hq3⟩ := hcond q0 (List.mem_cons_of_mem _ hq0)
        refine ⟨?_, ?_, ?_⟩
        · rw [h1]; exact hq1
        · rw [h1]; exact hq2
        · rcases h2 with h2 | h2
          · rw [h2]; exact hq3
          · rw [h2]; exact fun hm => hq3 (mem_of_mem_rtrim hm)
    obtain ⟨v2, rest2, hml, hv2, hrest2⟩ := hhead
    have hcond2 : ∀ p ∈ ((g, v2) :: rest2 : List (List Char × List Char)),
        p.1 ≠ [] ∧ ']' ∉ p.1 ∧ '[' ∉ p.2 := by
      intro p hp
      rcases List.mem_cons.mp hp with he | hp2
      · subst he
        exact ⟨hg1, hg2, hv2⟩
      · exact hrest2 p hp2
    have hlu : '[' ∉ ltrim u := fun hm => hu (mem_of_mem_ltrim hm)
    have hsw : strip (assemble u ((g, v) :: rest)) =
        assemble (ltrim u) ((g, v2) :: rest2) := by
      unfold strip
      rw [ltrim_assemble u g v rest, rtrim_assemble rest (ltrim u) g v, hml]
    have hff : findFirstBracket (strip (assemble u ((g, v) :: rest))) =
        some g := by
      rw [hsw]
      rw [show assemble (ltrim u) ((g, v2) :: rest2) =
        ltrim u ++ '[' :: (g ++ ']' :: assemble v2 rest2) from rfl]
      rw [findFirstBracket_append _ hlu, findFirstBracket]
      rw [bracketAt_exact (assemble v2 rest2) hg1 hg2]
    have hsb : subBrackets (strip (assemble u ((g, v) :: rest))) =
        subSpec (ltrim u) ((g, v2) :: rest2) := by
      rw [hsw]
      exact subBrackets_assemble ((g, v2) :: rest2) (ltrim u) hlu hcond2
    rw [parse_client_from_text]
    rw [hff, hsb, hml]
  case refine_1 =>
    intro u g v hu hg1 hg2 hv
    have hsw : strip (u ++ '[' :: (g ++ ']' :: v)) =
        ltrim u ++ '[' :: (g ++ ']' :: rtrim v) := by
      unfold strip
      have h1 : ltrim (u ++ '[' :: (g ++ ']' :: v)) =
          ltrim u ++ '[' :: (g ++ ']' :: v) :=
        ltrim_append_cons_nonws (by decide) u (g ++ ']' :: v)
      rw [h1]
      have e : (ltrim u ++ '[' :: (g ++ ']' :: v) : List Char) =
          (ltrim u ++ '[' :: g) ++ ']' :: v := by
        rw [List.append_assoc]
        rfl
      rw [e, rtrim_append_cons_nonws (by decide) (ltrim u ++ '[' :: g) v]
      rw [List.append_assoc]
      rfl
    have hlu : '[' ∉ ltrim u := fun hm => hu (mem_of_mem_ltrim hm)
    have hrv : '[' ∉ rtrim v := fun hm => hv (mem_of_mem_rtrim hm)
    have hff : findFirstBracket (strip (u ++ '[' :: (g ++ ']' :: v))) = some g := by
      rw [hsw, findFirstBracket_append _ hlu, findFirstBracket]
      rw [bracketAt_exact (rtrim v) hg1 hg2]
    have hsb : subBrackets (strip (u ++ '[' :: (g ++ ']' :: v))) =
        strip u ++ ' ' :: strip v := by
      rw [hsw, subBrackets_split hg1 hg2 (ltrim u) (rtrim v) hlu]
      rw [show (rtrim v).dropWhile isWS = ltrim (rtrim v) from rfl]
      rw [ltrim_rtrim_comm v]
      rw [subBrackets_no_bracket
        (fun hm => hv (mem_of_mem_ltrim (mem_of_mem_rtrim hm)))]
      rfl
    rw [parse_client_from_text]
    rw [hff, hsb]
  · intro t ht
    rw [parse_client_from_text]
    rw [findFirstBracket_no_bracket (fun hm => ht (mem_of_mem_strip hm))]

/-- Witness for C3: a concrete padded-bracket input, and a concrete
two-bracket input exercising the general multi-bracket conjunct. -/
theorem c3_client_extraction_witness :
    ('[' ∉ "ab ".toList) ∧
    parse_client_from_text ("ab ".toList ++ '[' :: (" X ".toList ++ ']' :: " cd".toList)) =
      (some (strip " X ".toList),
       strip (strip "ab ".toList ++ ' ' :: strip " cd".toList)) ∧
    parse_client_from_text
        (assemble "a ".toList
          [("X".toList, " b ".toList), ("Y".toList, " c".toList)]) =
      (some (strip "X".toList),
       strip (subSpec (ltrim "a ".toList)
         (mapLastSnd rtrim [("X".toList, " b ".toList), ("Y".toList, " c".toList)]))) :=
  ⟨by decide,
   c3_client_extraction.1 "ab ".toList " X ".toList " cd".toList
     (by decide) (by decide) (by decide) (by decide),
   c3_client_extraction.2.1 "a ".toList "X".toList " b ".toList
     [("Y".toList, " c".toList)] (by decide) (by decide)⟩

end Review
